import Mathlib

/-!
Verification development for the greedypacker 2D bin-packing repository,
restricted to the two source files `greedypacker/skyline.py` and
`greedypacker/binmanager.py`.

The Python code is shallowly embedded: Python `int` becomes `Int`,
Python lists become `List`, `sortedcontainers.SortedList` becomes a plain
list kept sorted through an insertion function mirroring `SortedList.add`
(bisect-right insertion on the lexicographic tuple key), and Python
exceptions become `Except PyErr`.

The modules `guillotine.py` and `item.py` are imported by the sources but
are not part of the two given files; the parts of them that the skyline
engine and bin manager touch (the `Item` record with `rotate`, and the
Guillotine wastemap with `insert` and `rectangle_merge`) are modelled from
the specification and marked as such in their doc comments.
-/

namespace GreedyPacker

/-- Python exceptions that the embedded code can raise. -/
inductive PyErr where
  | indexError
  | attrError
  | valueError
deriving DecidableEq, Repr

/-- Modelled from the spec: `item.py` is not among the given sources.
An item is a rectangle with positive width and height, a mutable
position `(x, y)` and a rotation flag (spec §3, Data model). -/
structure Item where
  width : Int
  height : Int
  x : Int
  y : Int
  rotated : Bool
deriving DecidableEq, Repr

/-- Modelled from the spec: `rotate()` swaps width/height and toggles the
rotated flag (spec §4.1). -/
def Item.rotate (it : Item) : Item :=
  { it with width := it.height, height := it.width, rotated := !it.rotated }

/-- `SkylineSegment = NamedTuple('SkylineSegment', [('x', int), ('y', int), ('width', int)])`. -/
structure SkylineSegment where
  x : Int
  y : Int
  width : Int
deriving DecidableEq, Repr

/-- The lexicographic comparison on the `(x, y, width)` tuple, which is the
order `sortedcontainers.SortedList` uses for the `SkylineSegment` named
tuples. -/
def segLt (a b : SkylineSegment) : Bool :=
  a.x < b.x || (a.x == b.x && (a.y < b.y || (a.y == b.y && a.width < b.width)))

/-- `SortedList.add`: bisect-right insertion, i.e. the new element goes
after all existing elements whose key is not greater. -/
def sortedAdd : List SkylineSegment → SkylineSegment → List SkylineSegment
  | [], s => [s]
  | a :: rest, s => if segLt s a then s :: a :: rest else a :: sortedAdd rest s

/-- `SortedList.update`: add every element of the second list in turn. -/
def sortedUpdate (acc : List SkylineSegment) (l : List SkylineSegment) :
    List SkylineSegment :=
  l.foldl sortedAdd acc

/-- `SortedList.remove`: delete the first occurrence of the given value. -/
def removeFirst : List SkylineSegment → SkylineSegment → List SkylineSegment
  | [], _ => []
  | a :: rest, s => if a = s then rest else a :: removeFirst rest s

/-- `SortedList.index`: position of the first occurrence of a value, if any. -/
def indexOfSeg : List SkylineSegment → SkylineSegment → Option Nat
  | [], _ => none
  | a :: rest, s =>
    if a = s then some 0 else (indexOfSeg rest s).map (· + 1)

/-- Python's `min(l, key=key)` under a strict comparison `lt` on keys: the
first element whose key no later element strictly improves.  `none` exactly
when the list is empty (Python raises `ValueError` there). -/
def pyMinBy {α κ : Type} (lt : κ → κ → Bool) (key : α → κ) : List α → Option α
  | [] => none
  | a :: rest => some (rest.foldl (fun acc x => if lt (key x) (key acc) then x else acc) a)

/-- Strict lexicographic order on pairs of integers, the order Python uses
to compare the 2-tuple scores. -/
def lexLtII (a b : Int × Int) : Bool :=
  a.1 < b.1 || (a.1 == b.1 && a.2 < b.2)

/-- Modelled from the spec: `guillotine.py` is not among the given
sources.  A free rectangle of the Guillotine engine (spec §3): width,
height, x, y. -/
structure FreeRectangle where
  width : Int
  height : Int
  x : Int
  y : Int
deriving DecidableEq, Repr

/-- Modelled from the spec: the Guillotine engine state that the skyline
wastemap uses — its dimensions, rotation flag and the collection of free
rectangles (spec §4.2).  The placed-items bookkeeping of the engine is
irrelevant to the skyline code and is not modelled. -/
structure Guillotine where
  width : Int
  height : Int
  rotation : Bool
  freerects : List FreeRectangle
deriving DecidableEq, Repr

/-- Modelled from the spec: a fresh Guillotine engine starts with the single
free rectangle `(binW, binH, 0, 0)` (spec §4.2).  The skyline engine
constructs its wastemap as `Guillotine(0, 0, rotation, heuristic='best_area')`. -/
def mkGuillotine (w h : Int) (rotation : Bool) : Guillotine :=
  { width := w, height := h, rotation := rotation, freerects := [⟨w, h, 0, 0⟩] }

/-- Modelled from the spec: an item of dimensions `(w, h)` fits into a free
rectangle iff both dimensions are at most the rectangle's (spec §4.2). -/
def guilFits (r : FreeRectangle) (w h : Int) : Bool :=
  w ≤ r.width && h ≤ r.height

/-- Modelled from the spec: the `best_area` score of placing an item of
dimensions `(w, h)` into free rectangle `r` is `area(r) − w·h`; smaller is
better (spec §4.2). -/
def bestAreaScore (r : FreeRectangle) (w h : Int) : Int :=
  r.width * r.height - w * h

/-- Modelled from the spec: SAS split — after placing an item of dimensions
`(iw, ih)` at the bottom-left corner of free rectangle `r`, the remainder is
cut along the shorter remaining axis into exactly two new free rectangles
(spec §4.2). -/
def splitSAS (r : FreeRectangle) (iw ih : Int) : List FreeRectangle :=
  let remW := r.width - iw
  let remH := r.height - ih
  if remW ≤ remH then
    [⟨remW, ih, r.x + iw, r.y⟩, ⟨r.width, remH, r.x, r.y + ih⟩]
  else
    [⟨remW, r.height, r.x + iw, r.y⟩, ⟨iw, remH, r.x, r.y + ih⟩]

/-- Modelled from the spec: two free rectangles fuse when they have
identical widths and share a horizontal edge, or identical heights and
share a vertical edge (spec §4.2). -/
def rectMergeable (a b : FreeRectangle) : Bool :=
  (a.width == b.width && a.x == b.x &&
    (a.y + a.height == b.y || b.y + b.height == a.y)) ||
  (a.height == b.height && a.y == b.y &&
    (a.x + a.width == b.x || b.x + b.width == a.x))

/-- Modelled from the spec: the fused rectangle of two mergeable free
rectangles is their bounding box (spec §4.2). -/
def rectFuse (a b : FreeRectangle) : FreeRectangle :=
  let x := min a.x b.x
  let y := min a.y b.y
  { width := max (a.x + a.width) (b.x + b.width) - x,
    height := max (a.y + a.height) (b.y + b.height) - y,
    x := x, y := y }

/-- First partner in the list mergeable with `r`, together with the list
without it. -/
def findPartner (r : FreeRectangle) : List FreeRectangle →
    Option (FreeRectangle × List FreeRectangle)
  | [] => none
  | c :: rest =>
    if rectMergeable r c then some (rectFuse r c, rest)
    else (findPartner r rest).map (fun p => (p.1, c :: p.2))

/-- Modelled from the spec: one pairwise merge pass over the free
rectangles (spec §4.2), fuel-bounded by the list length. -/
def mergeOnePass : Nat → List FreeRectangle → List FreeRectangle
  | 0, l => l
  | _ + 1, [] => []
  | n + 1, r :: rest =>
    match findPartner r rest with
    | some (merged, rest') => merged :: mergeOnePass n rest'
    | none => r :: mergeOnePass n rest

/-- Modelled from the spec: `rectangle_merge` runs a pairwise merge pass
over the engine's free rectangles (spec §4.2). -/
def Guillotine.rectangle_merge (g : Guillotine) : Guillotine :=
  { g with freerects := mergeOnePass g.freerects.length g.freerects }

/-- Modelled from the spec: `Guillotine.insert` with the `best_area`
heuristic — search the free rectangles for those the item fits into
(both orientations when rotation is allowed), pick the best by score with
ties broken by first encountered, place the item at that rectangle's
`(x, y)` (rotating it first when the rotated orientation won), remove the
rectangle and split the remainder into two new free rectangles
(spec §4.2).  Returns the placed (mutated) item and the new engine state,
or `none` when no free rectangle accommodates the item, leaving the state
unchanged. -/
def guilInsert (g : Guillotine) (it : Item) : Option (Item × Guillotine) :=
  let cands := g.freerects.enum.flatMap (fun p =>
    (if guilFits p.2 it.width it.height then
      [(bestAreaScore p.2 it.width it.height, p.1, false)] else []) ++
    (if g.rotation && guilFits p.2 it.height it.width then
      [(bestAreaScore p.2 it.height it.width, p.1, true)] else []))
  match pyMinBy (fun a b => a < b) (fun c => c.1) cands with
  | none => none
  | some (_, i, rot) =>
    let r := g.freerects.getD i ⟨0, 0, 0, 0⟩
    let it1 := if rot then it.rotate else it
    let placed := { it1 with x := r.x, y := r.y }
    some (placed,
      { g with freerects := g.freerects.eraseIdx i ++ splitSAS r placed.width placed.height })

/-- The skyline heuristic names accepted by the constructor; any other
string raises `ValueError('No such heuristic!')` at construction, which no
claim exercises. -/
inductive SkyHeuristic where
  | bottom_left
  | best_fit
deriving DecidableEq, Repr

/-- The `Skyline` engine state, one field per attribute assigned in
`Skyline.__init__`.  The Python attributes `self.x` and `self.y` are never
assigned anywhere in the class yet are read by `bin_stats`; they are
modelled as `Option Int` fields that stay `none` (an absent attribute),
so reading them is an `AttributeError`.  The `self.wastemap` attribute is
assigned only when the wastemap option is on, hence also an `Option`. -/
structure Skyline where
  width : Int
  height : Int
  skyline : List SkylineSegment
  items : List Item
  area : Int
  free_area : Int
  rotation : Bool
  use_waste_map : Bool
  wastemap : Option Guillotine
  heuristic : SkyHeuristic
  x : Option Int
  y : Option Int
deriving DecidableEq, Repr

/-- `Skyline.__init__`. -/
def mkSkyline (width height : Int) (rotation wastemap : Bool)
    (heuristic : SkyHeuristic) : Skyline :=
  { width := width, height := height,
    skyline := [⟨0, 0, width⟩],
    items := [],
    area := width * height,
    free_area := width * height,
    rotation := rotation,
    use_waste_map := wastemap,
    wastemap := if wastemap then some (mkGuillotine 0 0 rotation) else none,
    heuristic := heuristic,
    x := none, y := none }

/-- `Skyline._clip_segment`: clip out the length of the segment adjacent to
the item and return the rest, by the five cases of the source. -/
def Skyline._clip_segment (segment : SkylineSegment) (item : Item) :
    List SkylineSegment :=
  let itemx := item.x
  let item_end_x := itemx + item.width
  let segx := segment.x
  let seg_end_x := segx + segment.width
  if segx > item_end_x ∨ segx + segment.width < itemx then [segment]
  else if segx ≥ itemx ∧ seg_end_x ≤ item_end_x then []
  else if segx < itemx ∧ seg_end_x ≤ item_end_x then
    [⟨segx, segment.y, itemx - segx⟩]
  else if segx ≥ itemx ∧ segx + segment.width > item_end_x then
    [⟨item_end_x, segment.y, seg_end_x - item_end_x⟩]
  else if segx < itemx ∧ segx + segment.width > item_end_x then
    [⟨segx, segment.y, itemx - segx⟩, ⟨item_end_x, segment.y, seg_end_x - item_end_x⟩]
  else []

/-- The `while width > 0` loop of `Skyline._check_fit`, with the remaining
width, the running maximum `y` and the segments from the current index.
The `none` in the empty case is the source's `width > 0 and i == len(...)`
early return. -/
def checkFitLoop (binH itemH : Int) : List SkylineSegment → Int → Int → Option Int
  | segs, width, y =>
    if width ≤ 0 then some y
    else match segs with
      | [] => none
      | seg :: rest =>
        let y' := max y seg.y
        if binH < y' + itemH then none
        else checkFitLoop binH itemH rest (width - seg.width) y'

/-- `Skyline._check_fit(item_width, item_height, sky_index)`: `some y`
for `(True, y)` and `none` for `(False, None)`.  The source indexes
`self.skyline[sky_index]`, which raises `IndexError` for an out-of-range
index; every call site passes an index produced by `enumerate`, so the
out-of-range case (modelled as `none`) is unreachable in the program. -/
def Skyline._check_fit (sky : List SkylineSegment) (binW binH : Int)
    (item_width item_height : Int) (sky_index : Nat) : Option Int :=
  match sky.drop sky_index with
  | [] => none
  | seg0 :: rest =>
    if binW < seg0.x + item_width then none
    else if binH < seg0.y + item_height then none
    else checkFitLoop binH item_height (seg0 :: rest) item_width seg0.y

/-- The `for seg in self.skyline[seg_index:]` loop of
`Skyline._add_to_wastemap`, threading the wastemap Guillotine state. -/
def wastemapLoop (item_left item_right y : Int) :
    List SkylineSegment → Guillotine → Guillotine
  | [], wm => wm
  | seg :: rest, wm =>
    if seg.x ≥ item_right ∨ seg.x + seg.width ≤ item_left then wm
    else
      let left_side := seg.x
      let right_side := min item_right (seg.x + seg.width)
      let w_width := right_side - left_side
      let w_height := y - seg.y
      let wm' :=
        if w_width > 0 ∧ w_height > 0 then
          Guillotine.rectangle_merge
            { wm with freerects := wm.freerects ++ [⟨w_width, w_height, left_side, seg.y⟩] }
        else wm
      wastemapLoop item_left item_right y rest wm'

/-- `Skyline._add_to_wastemap(seg_index, item, y)`: identify the wasted
space under the item above segment `seg_index` and donate it to the
wastemap.  The source reads `self.skyline[seg_index].x`; call sites pass
the index of a segment of the skyline, so the out-of-range case (modelled
as the unchanged wastemap) is unreachable. -/
def Skyline._add_to_wastemap (sky : List SkylineSegment) (seg_index : Nat)
    (item : Item) (y : Int) (wm : Guillotine) : Guillotine :=
  match sky.drop seg_index with
  | [] => wm
  | seg0 :: rest =>
    let item_left := seg0.x
    let item_right := item_left + item.width
    wastemapLoop item_left item_right y (seg0 :: rest) wm

/-- `scoreBL` (Bottom Left): `(item.width + y, seg.width)` when scoring the
rotated orientation, `(item.height + y, seg.width)` otherwise.  The source
reads `segs[i]`; call sites pass an in-range index, the out-of-range case
(modelled with a zero segment) is unreachable. -/
def scoreBL (segs : List SkylineSegment) (item : Item) (y : Int) (i : Nat)
    (rotation : Bool) : Int × Int :=
  let seg := segs.getD i ⟨0, 0, 0⟩
  if rotation then (item.width + y, seg.width) else (item.height + y, seg.width)

/-- The `for seg in segs[i:]` loop of `calc_waste`, with its break
condition. -/
def calcWasteLoop (item_left item_right y : Int) : List SkylineSegment → Int
  | [] => 0
  | seg :: rest =>
    if seg.x ≥ item_right ∨ seg.x + seg.width ≤ item_left then 0
    else
      (min item_right (seg.x + seg.width) - seg.x) * (y - seg.y) +
        calcWasteLoop item_left item_right y rest

/-- `calc_waste`: total wasted area if the item is inserted above segment
`i` at height `y`.  The source reads `segs[i].x`; call sites pass an
in-range index, so the out-of-range case (modelled as `0`) is
unreachable. -/
def calc_waste (segs : List SkylineSegment) (item : Item) (y : Int) (i : Nat)
    (rotation : Bool) : Int :=
  match segs.drop i with
  | [] => 0
  | seg0 :: rest =>
    let item_left := seg0.x
    let item_right := if rotation then item_left + item.height else item_left + item.width
    calcWasteLoop item_left item_right y (seg0 :: rest)

/-- `scoreBF` (Best Fit): `(calc_waste …, item.width + y)` when scoring the
rotated orientation, `(calc_waste …, item.height + y)` otherwise. -/
def scoreBF (segs : List SkylineSegment) (item : Item) (y : Int) (i : Nat)
    (rotation : Bool) : Int × Int :=
  if rotation then (calc_waste segs item y i true, item.width + y)
  else (calc_waste segs item y i false, item.height + y)

/-- The scoring function selected by `Skyline.__init__` from the heuristic
name and stored as `self._score`. -/
def scoreOf (h : SkyHeuristic) :
    List SkylineSegment → Item → Int → Nat → Bool → Int × Int :=
  match h with
  | .bottom_left => scoreBL
  | .best_fit => scoreBF

/-- The candidate tuples `(score, segment, y, rotated)` collected by the
`for i, segment in enumerate(self.skyline)` loop of
`Skyline._find_best_score`, starting at index `i`. -/
def candidatesFrom (s : Skyline) (item : Item) :
    Nat → List SkylineSegment → List ((Int × Int) × SkylineSegment × Int × Bool)
  | _, [] => []
  | i, segment :: rest =>
    (match Skyline._check_fit s.skyline s.width s.height item.width item.height i with
     | some y => [(scoreOf s.heuristic s.skyline item y i false, segment, y, false)]
     | none => []) ++
    (if s.rotation then
      match Skyline._check_fit s.skyline s.width s.height item.height item.width i with
      | some y => [(scoreOf s.heuristic s.skyline item y i true, segment, y, true)]
      | none => []
     else []) ++
    candidatesFrom s item (i + 1) rest

/-- All candidate tuples of `Skyline._find_best_score`. -/
def skyCandidates (s : Skyline) (item : Item) :
    List ((Int × Int) × SkylineSegment × Int × Bool) :=
  candidatesFrom s item 0 s.skyline

/-- `Skyline._find_best_score(item)`: the candidate of minimal score under
Python's `min` (first minimum wins), reordered to
`(score, segment, rotated, y)` as in the source's `return`; `none` models
the `except ValueError` branch `(None, None, None, False)`. -/
def Skyline._find_best_score (s : Skyline) (item : Item) :
    Option ((Int × Int) × SkylineSegment × Bool × Int) :=
  match pyMinBy lexLtII (fun c => c.1) (skyCandidates s item) with
  | none => none
  | some (sc, seg, y, rot) => some (sc, seg, rot, y)

/-- The skyline list built by `Skyline._update_segment`: clip every
segment under the new item, then add a new segment above the item if there
is room below the bin top. -/
def clipAndAdd (s : Skyline) (segment : SkylineSegment) (item : Item) :
    List SkylineSegment :=
  let base := s.skyline.foldl (fun acc seg => sortedUpdate acc (Skyline._clip_segment seg item)) []
  if item.height + item.y < s.height then
    sortedAdd base ⟨segment.x, item.y + item.height, item.width⟩
  else base

/-- `Skyline._update_segment(segment, y, item)`: when the wastemap option
is on, look up the segment's index (`SortedList.index` raises `ValueError`
when the value is absent) and feed the trapped space to the wastemap
(reading `self.wastemap`, an `AttributeError` when that attribute was
never assigned); then return the clipped-and-extended segment list and
the new wastemap attribute. -/
def Skyline._update_segment (s : Skyline) (segment : SkylineSegment) (y : Int)
    (item : Item) : Except PyErr (List SkylineSegment × Option Guillotine) :=
  if s.use_waste_map then
    match indexOfSeg s.skyline segment with
    | none => .error .valueError
    | some seg_i =>
      match s.wastemap with
      | none => .error .attrError
      | some wm =>
        .ok (clipAndAdd s segment item, some (Skyline._add_to_wastemap s.skyline seg_i item y wm))
  else .ok (clipAndAdd s segment item, s.wastemap)

/-- The `for seg in self.skyline[1:]` loop of `Skyline._merge_segments`:
`acc` is the `new_segments` sorted list, whose greatest element
(`new_segments[-1]`) is its last.  The empty-`acc` case is unreachable
(the list starts with one element and never shrinks). -/
def mergeLoop : List SkylineSegment → List SkylineSegment → List SkylineSegment
  | acc, [] => acc
  | acc, seg :: rest =>
    match acc.getLast? with
    | none => mergeLoop (sortedAdd acc seg) rest
    | some last =>
      if seg.y = last.y ∧ seg.x = last.x + last.width then
        mergeLoop (sortedAdd (removeFirst acc last)
          ⟨last.x, last.y, seg.x + seg.width - last.x⟩) rest
      else mergeLoop (sortedAdd acc seg) rest

/-- `Skyline._merge_segments()`: merge adjacent segments of equal `y`.
The source starts from `SortedList([self.skyline[0]])`, which raises
`IndexError` when the skyline is empty. -/
def Skyline._merge_segments (sky : List SkylineSegment) :
    Except PyErr (List SkylineSegment) :=
  match sky with
  | [] => .error .indexError
  | s0 :: rest => .ok (mergeLoop [s0] rest)

/-- `Skyline.insert(item)`: returns the Python boolean result together
with the new engine state, or the exception the source raises.  The guard
`if self.wastemap:` reads the `wastemap` attribute (an `AttributeError`
when it was never assigned; a Guillotine instance is always truthy).
The `heuristic` parameter of the source is unused (the wastemap insert
hard-codes `best_area`), so it is not modelled. -/
def Skyline.insert (s : Skyline) (item : Item) : Except PyErr (Bool × Skyline) :=
  match s.wastemap with
  | none => .error .attrError
  | some wm =>
    match guilInsert wm item with
    | some (placed, wm') =>
      .ok (true, { s with
        items := s.items ++ [placed],
        free_area := s.free_area - placed.width * placed.height,
        wastemap := some wm' })
    | none =>
      match Skyline._find_best_score s item with
      | none => .ok (false, s)
      | some (_, best_seg, rotation, best_y) =>
        let item1 := if rotation then item.rotate else item
        let item2 := { item1 with x := best_seg.x, y := best_y }
        match Skyline._update_segment s best_seg best_y item2 with
        | .error e => .error e
        | .ok (newSky, wm2) =>
          match Skyline._merge_segments newSky with
          | .error e => .error e
          | .ok merged =>
            .ok (true, { s with
              items := s.items ++ [item2],
              free_area := s.free_area - item2.width * item2.height,
              skyline := merged,
              wastemap := wm2 })

/-- The dictionary returned by `Skyline.bin_stats()`, with the efficiency
ratio (a Python float division) modelled as an exact rational. -/
structure BinStats where
  width : Int
  height : Int
  area : Int
  efficiency : Rat
  items : List Item
deriving DecidableEq, Repr

/-- `Skyline.bin_stats()`: the dictionary literal evaluates
`'width': self.x` first and `'height': self.y` second; both attributes are
never assigned, so the lookup is modelled on the `Option` fields. -/
def Skyline.bin_stats (s : Skyline) : Except PyErr BinStats :=
  match s.x with
  | none => .error .attrError
  | some xv =>
    match s.y with
    | none => .error .attrError
    | some yv =>
      .ok { width := xv, height := yv, area := s.area,
            efficiency := ((s.area - s.free_area : Int) : Rat) / ((s.area : Int) : Rat),
            items := s.items }

/-- The two bin-selection algorithm names `BinManager.__init__` accepts. -/
inductive BinAlgo where
  | bin_best_fit
  | bin_first_fit
deriving DecidableEq, Repr

/-- The sorting-heuristic keys of `BinManager.items_sort`; `unknown`
stands for any string other than the twelve recognized ones, which falls
back to descending area.  The constructor names are the source's strings
(`ascratio` and `descratio` in lower case). -/
inductive SortKey where
  | asca | desca | ascss | descss | ascls | descls
  | ascperim | descperim | ascdiff | descdiff | ascratio | descratio
  | unknown
deriving DecidableEq, Repr

/-- The sort key of one item under a sorting heuristic: area, shorter
side, longer side, perimeter, side difference, or side ratio (the
Python float division `width / height` modelled as an exact rational,
with the items' positive dimensions). -/
def sortKeyVal (k : SortKey) (el : Item) : Rat :=
  match k with
  | .asca | .desca | .unknown => ((el.width * el.height : Int) : Rat)
  | .ascss | .descss => ((if el.width < el.height then el.width else el.height : Int) : Rat)
  | .ascls | .descls => ((if el.width > el.height then el.width else el.height : Int) : Rat)
  | .ascperim | .descperim => ((2 * el.width + 2 * el.height : Int) : Rat)
  | .ascdiff | .descdiff => ((|el.width - el.height| : Int) : Rat)
  | .ascratio | .descratio => ((el.width : Int) : Rat) / ((el.height : Int) : Rat)

/-- Whether a sorting heuristic sorts in descending order
(`reverse=True`); unknown keys fall back to descending area. -/
def sortDescending (k : SortKey) : Bool :=
  match k with
  | .asca | .ascss | .ascls | .ascperim | .ascdiff | .ascratio => false
  | _ => true

/-- Stable insertion of one element into an already-sorted list under a
total boolean preorder: the element goes after every element it does not
strictly precede, which preserves the original order of equal keys. -/
def stableInsert (le : Item → Item → Bool) (x : Item) : List Item → List Item
  | [] => [x]
  | y :: ys => if le y x then y :: stableInsert le x ys else x :: y :: ys

/-- Stable sort under a total boolean preorder, by left-to-right
insertion; a stable sort is uniquely determined by the preorder, so this
is Python's `list.sort`. -/
def stableSort (le : Item → Item → Bool) (l : List Item) : List Item :=
  l.foldl (fun acc x => stableInsert le x acc) []

/-- `BinManager.items_sort()`: Python's stable `list.sort` with the
selected key; `reverse=True` keeps equal-key items in their original
order, so it is the stable sort under the reversed large-to-small
comparison. -/
def items_sort (k : SortKey) (items : List Item) : List Item :=
  if sortDescending k then
    stableSort (fun a b => sortKeyVal k b ≤ sortKeyVal k a) items
  else
    stableSort (fun a b => sortKeyVal k a ≤ sortKeyVal k b) items

/-- The `BinManager` state, one field per attribute of
`BinManager.__init__`, instantiated at `pack_algo='skyline'` (the modules
of the other three engines are not among the given sources, so `bins`
holds `Skyline` engines and the `pack_algo`/`algorithm` string fields are
implicit).  `heuristic` is the engine heuristic forwarded to the factory;
`split_heuristic` and `rectangle_merge` are stored but only ever
forwarded to the guillotine factory branch, which this instantiation
never takes. -/
structure BinManager where
  bin_width : Int
  bin_height : Int
  items : List Item
  bin_count : Int
  bin_algo : BinAlgo
  heuristic : SkyHeuristic
  split_heuristic : String
  sorting : Bool
  sorting_heuristic : SortKey
  rotation : Bool
  rectangle_merge : Bool
  wastemap : Bool
  bins : List Skyline
deriving DecidableEq, Repr

/-- `BinManager._bin_factory()` at `pack_algo='skyline'`:
`skyline.Skyline(self.bin_width, self.bin_height, self.rotation, self.wastemap, self.heuristic)`. -/
def BinManager._bin_factory (m : BinManager) : Skyline :=
  mkSkyline m.bin_width m.bin_height m.rotation m.wastemap m.heuristic

/-- `BinManager.__init__` at `pack_algo='skyline'`: records the options
and starts `bins` with the single default bin built by `_bin_factory`. -/
def mkBinManager (bin_width bin_height : Int) (bin_algo : BinAlgo)
    (heuristic : SkyHeuristic) (split_heuristic : String)
    (rotation rectangle_merge wastemap sorting : Bool)
    (sorting_heuristic : SortKey) : BinManager :=
  let m0 : BinManager :=
    { bin_width := bin_width, bin_height := bin_height, items := [],
      bin_count := 0, bin_algo := bin_algo, heuristic := heuristic,
      split_heuristic := split_heuristic, sorting := sorting,
      sorting_heuristic := sorting_heuristic, rotation := rotation,
      rectangle_merge := rectangle_merge, wastemap := wastemap, bins := [] }
  { m0 with bins := [BinManager._bin_factory m0] }

/-- `BinManager.add_items(*items)`: append then re-sort when sorting is
enabled. -/
def BinManager.add_items (m : BinManager) (newItems : List Item) : BinManager :=
  let m1 := { m with items := m.items ++ newItems }
  if m1.sorting then { m1 with items := items_sort m1.sorting_heuristic m1.items }
  else m1

/-- The `for binn in self.bins` loop of `BinManager._bin_first_fit`:
insert into each bin in turn until one returns `True`; returns the flag
`result` of the loop and the updated bin list. -/
def firstFitLoop (item : Item) : List Skyline → Except PyErr (Bool × List Skyline)
  | [] => .ok (false, [])
  | b :: rest =>
    match Skyline.insert b item with
    | .error e => .error e
    | .ok (true, b') => .ok (true, b' :: rest)
    | .ok (false, b') =>
      match firstFitLoop item rest with
      | .error e => .error e
      | .ok (f, rest') => .ok (f, b' :: rest')

/-- `BinManager._bin_first_fit(item)`: insert into the first bin that
fits; on all-miss, append a fresh bin from the factory and insert there,
ignoring that insert's result. -/
def BinManager._bin_first_fit (m : BinManager) (item : Item) :
    Except PyErr BinManager :=
  match firstFitLoop item m.bins with
  | .error e => .error e
  | .ok (true, bins') => .ok { m with bins := bins' }
  | .ok (false, bins') =>
    match Skyline.insert (BinManager._bin_factory m) item with
    | .error e => .error e
    | .ok (_, nb') => .ok { m with bins := bins' ++ [nb'] }

/-- The `for binn in self.bins` loop of `BinManager._bin_best_fit`
collecting `(score, bin)` pairs, modelled with the bin's index in place of
the object reference: each bin whose `_find_best_score` returns a
non-`None` score contributes its score and index. -/
def scoresFrom (item : Item) : Nat → List Skyline → List ((Int × Int) × Nat)
  | _, [] => []
  | i, b :: rest =>
    (match Skyline._find_best_score b item with
     | some (s, _, _, _) => [(s, i)]
     | none => []) ++
    scoresFrom item (i + 1) rest

/-- All `(score, bin index)` pairs `_bin_best_fit` collects for an item. -/
def BinManager.scores (m : BinManager) (item : Item) : List ((Int × Int) × Nat) :=
  scoresFrom item 0 m.bins

/-- `BinManager._bin_best_fit(item)`: validate that the item fits the bin
dimensions in some allowed orientation (else
`ValueError("Error! item too big for bin")`); dispatch to the bin of
minimal score when some bin reports one, else open a fresh bin, insert
there (result ignored), append it and return `True`. -/
def BinManager._bin_best_fit (m : BinManager) (item : Item) :
    Except PyErr (Bool × BinManager) :=
  let item_fits :=
    (item.width ≤ m.bin_width ∧ item.height ≤ m.bin_height) ∨
      (m.rotation ∧ item.height ≤ m.bin_width ∧ item.width ≤ m.bin_height)
  if ¬ item_fits then .error .valueError
  else
    match pyMinBy lexLtII (fun c => c.1) (BinManager.scores m item) with
    | some (_, i) =>
      match Skyline.insert (m.bins.getD i (BinManager._bin_factory m)) item with
      | .error e => .error e
      | .ok (res, b') => .ok (res, { m with bins := m.bins.set i b' })
    | none =>
      match Skyline.insert (BinManager._bin_factory m) item with
      | .error e => .error e
      | .ok (_, nb') => .ok (true, { m with bins := m.bins ++ [nb'] })

/-- One step of `BinManager.execute()`: dispatch one item by the
configured bin-selection algorithm (`self.bin_sel_algo`), discarding
`_bin_best_fit`'s boolean result as the source does. -/
def BinManager.dispatch (m : BinManager) (item : Item) : Except PyErr BinManager :=
  match m.bin_algo with
  | .bin_first_fit => BinManager._bin_first_fit m item
  | .bin_best_fit =>
    match BinManager._bin_best_fit m item with
    | .error e => .error e
    | .ok (_, m') => .ok m'

/-- The `for item in self.items` loop of `BinManager.execute()`. -/
def executeLoop : List Item → BinManager → Except PyErr BinManager
  | [], m => .ok m
  | it :: rest, m =>
    match BinManager.dispatch m it with
    | .error e => .error e
    | .ok m' => executeLoop rest m'

/-- `BinManager.execute()`: loop over all items and attempt insertion
(the dispatchers never modify `self.items`, so iterating the initial
list is faithful). -/
def BinManager.execute (m : BinManager) : Except PyErr BinManager :=
  executeLoop m.items m

/-- The segments starting at `x0` tile `[x0, endX]` exactly: each one
starts where the previous ended, has positive width, and the last ends at
`endX`.  This is the "no gap, no overlap" partition of the spec. -/
def tilesFrom : Int → List SkylineSegment → Int → Prop
  | x0, [], endX => x0 = endX
  | x0, s :: rest, endX => s.x = x0 ∧ 0 < s.width ∧ tilesFrom (x0 + s.width) rest endX

/-- Decidability of `tilesFrom`, for concrete witnesses. -/
def decTilesFrom (x0 : Int) (l : List SkylineSegment) (endX : Int) :
    Decidable (tilesFrom x0 l endX) :=
  match l with
  | [] => decidable_of_iff (x0 = endX) (by simp [tilesFrom])
  | s :: rest =>
    have := decTilesFrom (x0 + s.width) rest endX
    decidable_of_iff (s.x = x0 ∧ 0 < s.width ∧ tilesFrom (x0 + s.width) rest endX)
      (by simp [tilesFrom])

instance : ∀ (x0 : Int) (l : List SkylineSegment) (endX : Int),
    Decidable (tilesFrom x0 l endX) := fun x0 l e => decTilesFrom x0 l e

/-- No two adjacent segments of the list have equal `y`. -/
def noAdjEqY : List SkylineSegment → Prop
  | [] => True
  | [_] => True
  | a :: b :: rest => a.y ≠ b.y ∧ noAdjEqY (b :: rest)

/-- Decidability of `noAdjEqY`, for concrete witnesses. -/
def decNoAdjEqY : (l : List SkylineSegment) → Decidable (noAdjEqY l)
  | [] => decidable_of_iff True (by simp [noAdjEqY])
  | [a] => decidable_of_iff True (by simp [noAdjEqY])
  | a :: b :: rest =>
    have := decNoAdjEqY (b :: rest)
    decidable_of_iff (a.y ≠ b.y ∧ noAdjEqY (b :: rest)) (by simp [noAdjEqY])

instance : ∀ l : List SkylineSegment, Decidable (noAdjEqY l) := decNoAdjEqY

/-- The list is sorted by `x` (strictly increasing between neighbours). -/
def sortedByX : List SkylineSegment → Prop
  | [] => True
  | [_] => True
  | a :: b :: rest => a.x < b.x ∧ sortedByX (b :: rest)

/-- Decidability of `sortedByX`, for concrete witnesses. -/
def decSortedByX : (l : List SkylineSegment) → Decidable (sortedByX l)
  | [] => decidable_of_iff True (by simp [sortedByX])
  | [a] => decidable_of_iff True (by simp [sortedByX])
  | a :: b :: rest =>
    have := decSortedByX (b :: rest)
    decidable_of_iff (a.x < b.x ∧ sortedByX (b :: rest)) (by simp [sortedByX])

instance : ∀ l : List SkylineSegment, Decidable (sortedByX l) := decSortedByX

/-- The skyline invariant of the claim: sorted by `x`, tiling `[0, binW]`
with no gap and no overlap, and no two adjacent segments of equal `y`. -/
def skylineInv (sky : List SkylineSegment) (binW : Int) : Prop :=
  sortedByX sky ∧ tilesFrom 0 sky binW ∧ noAdjEqY sky

/-- Spec-side reading of the fit test: the minimal prefix of the segments
whose widths sum to at least `w`; `none` when the skyline ends first. -/
def spannedPrefix (w : Int) : List SkylineSegment → Option (List SkylineSegment)
  | [] => if w ≤ 0 then some [] else none
  | s :: rest =>
    if w ≤ 0 then some []
    else (spannedPrefix (w - s.width) rest).map (s :: ·)

/-- The maximum `y` over a list of segments (`0` for the empty list, which
the uses below never hit). -/
def maxYlist : List SkylineSegment → Int
  | [] => 0
  | s :: rest => rest.foldl (fun a t => max a t.y) s.y

/-- Spec-side reading of `_check_fit` for segment `i` and dimensions
`(w, h)`: starting at `x = seg[i].x`, accumulate segment widths until at
least `w` (failing if the skyline ends first); with `y` the maximum
segment `y` over the spanned segments, the fit succeeds iff
`x + w ≤ binW` and `y + h ≤ binH`, yielding that `y`. -/
def specCheckFit (sky : List SkylineSegment) (binW binH : Int)
    (w h : Int) (i : Nat) : Option Int :=
  match sky.drop i with
  | [] => none
  | s0 :: rest =>
    match spannedPrefix w (s0 :: rest) with
    | none => none
    | some spanned =>
      let y := maxYlist spanned
      if s0.x + w ≤ binW ∧ y + h ≤ binH then some y else none

/-- Spec-side wasted area of a placement at height `y` whose x-extent is
`[left, right)`: the sum, over the spanned segments (those from index `i`
on that the extent overlaps), of the overlap width times `y − seg.y`. -/
def specWastedArea (segs : List SkylineSegment) (i : Nat)
    (left right y : Int) : Int :=
  (((segs.drop i).filter
      (fun seg => decide (seg.x < right) && decide (left < seg.x + seg.width))).map
    (fun seg => (min right (seg.x + seg.width) - max left seg.x) * (y - seg.y))).sum

/-- Spec-side validation of `_bin_best_fit`: the item fits in some
orientation within the bin dimensions, the rotated orientation counting
only when rotation is enabled. -/
def specFits (m : BinManager) (item : Item) : Prop :=
  (item.width ≤ m.bin_width ∧ item.height ≤ m.bin_height) ∨
    (m.rotation = true ∧ item.height ≤ m.bin_width ∧ item.width ≤ m.bin_height)

instance (m : BinManager) (item : Item) : Decidable (specFits m item) := by
  unfold specFits; infer_instance

section Lemmas

/-- If every index from `k` on fails the fit test in both allowed
orientations, the enumeration loop collects no candidates. -/
theorem candidatesFrom_eq_nil (s : Skyline) (it : Item) :
    ∀ (l : List SkylineSegment) (k : Nat),
      (∀ j, k ≤ j → j < k + l.length →
        Skyline._check_fit s.skyline s.width s.height it.width it.height j = none ∧
        (s.rotation = true →
          Skyline._check_fit s.skyline s.width s.height it.height it.width j = none)) →
      candidatesFrom s it k l = [] := by
  intro l
  induction l with
  | nil => intro k _; rfl
  | cons seg rest ih =>
    intro k hk
    have h0 := hk k (le_refl k) (by simp)
    have hrest := ih (k + 1) (fun j hj1 hj2 => hk j (by omega) (by simp at hj2 ⊢; omega))
    simp only [candidatesFrom, h0.1, hrest]
    rcases hrot : s.rotation with _ | _
    · simp
    · simp [h0.2 hrot]

/-- Claim C3 helper: with both fit tests failing everywhere,
`_find_best_score` yields `none`. -/
theorem find_best_score_none (s : Skyline) (it : Item)
    (hseg : ∀ j, j < s.skyline.length →
      Skyline._check_fit s.skyline s.width s.height it.width it.height j = none ∧
      (s.rotation = true →
        Skyline._check_fit s.skyline s.width s.height it.height it.width j = none)) :
    Skyline._find_best_score s it = none := by
  have : skyCandidates s it = [] := by
    apply candidatesFrom_eq_nil
    intro j hj1 hj2
    exact hseg j (by simpa using hj2)
  simp [Skyline._find_best_score, this, pyMinBy]

end Lemmas

/-- Claim C3: when the wastemap placement fails and no segment admits the
item in any allowed orientation, `insert` returns the boolean `False` and
the engine state — in particular its items list, `free_area` and skyline
segment list — is unchanged. -/
theorem insert_no_fit_false_and_unchanged (s : Skyline) (wm : Guillotine) (it : Item)
    (hwm : s.wastemap = some wm)
    (hguil : guilInsert wm it = none)
    (hseg : ∀ j, j < s.skyline.length →
      Skyline._check_fit s.skyline s.width s.height it.width it.height j = none ∧
      (s.rotation = true →
        Skyline._check_fit s.skyline s.width s.height it.height it.width j = none)) :
    Skyline.insert s it = .ok (false, s) := by
  unfold Skyline.insert
  rw [hwm]
  simp only [hguil, find_best_score_none s it hseg]

/-- Claim C3 witness: an oversized item on a fresh 10×10 skyline bin
without rotation: the wastemap rejects it, no segment fits it, `insert`
returns `False` and the state is untouched. -/
theorem insert_no_fit_false_and_unchanged_witness :
    Skyline.insert (mkSkyline 10 10 false true .bottom_left) ⟨11, 1, 0, 0, false⟩ =
      .ok (false, mkSkyline 10 10 false true .bottom_left) := by
  exact insert_no_fit_false_and_unchanged
    (mkSkyline 10 10 false true .bottom_left) (mkGuillotine 0 0 false)
    ⟨11, 1, 0, 0, false⟩ rfl (by decide)
    (by
      intro j hj
      have hj0 : j = 0 := by
        simpa [mkSkyline] using hj
      subst hj0
      exact ⟨by decide, fun h => by simp [mkSkyline] at h⟩)

/-- Claim C8: inserting an item of exactly the bin's dimensions into a
freshly constructed Skyline engine raises `IndexError`: clipping removes
every segment, no replacement segment is added because `item.y +
item.height` equals the bin height, and `_merge_segments` indexes the
first element of the now-empty skyline. -/
theorem insert_full_item_raises_index_error :
    Skyline.insert (mkSkyline 10 10 true true .bottom_left) ⟨10, 10, 0, 0, false⟩ =
      .error .indexError := by rfl

/-- Claim C9: a Skyline engine constructed with the wastemap option off
never assigns the `wastemap` attribute, so the guard `if self.wastemap:`
at the top of `insert` raises `AttributeError` on every call. -/
theorem insert_wastemap_disabled_raises_attr_error
    (w h : Int) (rot : Bool) (heur : SkyHeuristic) (it : Item) :
    Skyline.insert (mkSkyline w h rot false heur) it = .error .attrError := rfl

/-- Claim C7 (code bug): `bin_stats` reads `self.x` and `self.y`, which
no code path ever assigns, so it raises `AttributeError` on every
freshly constructed Skyline bin instead of returning the stats
dictionary; moreover `insert` never assigns those attributes, so the
same holds for every bin reachable by insertions. -/
theorem bin_stats_raises_attr_error :
    (∀ (w h : Int) (rot wm : Bool) (heur : SkyHeuristic),
      Skyline.bin_stats (mkSkyline w h rot wm heur) = .error .attrError) ∧
    (∀ (s : Skyline) (it : Item) (b : Bool) (s' : Skyline),
      Skyline.insert s it = .ok (b, s') → s'.x = s.x ∧ s'.y = s.y) := by
  constructor
  · intro w h rot wm heur; rfl
  · intro s it b s' h
    rw [Skyline.insert] at h
    rcases hwm : s.wastemap with _ | wm
    · simp only [hwm] at h
      exact absurd h (by simp)
    · simp only [hwm] at h
      rcases hg : guilInsert wm it with _ | ⟨placed, wmA⟩
      · simp only [hg] at h
        rcases hf : Skyline._find_best_score s it with _ | ⟨sc, seg, rot, yv⟩
        · simp only [hf, Except.ok.injEq, Prod.mk.injEq] at h
          rw [← h.2]
          exact ⟨rfl, rfl⟩
        · simp only [hf] at h
          split at h
          · simp at h
          · split at h
            · simp at h
            · simp only [Except.ok.injEq, Prod.mk.injEq] at h
              rw [← h.2]
              exact ⟨rfl, rfl⟩
      · simp only [hg, Except.ok.injEq, Prod.mk.injEq] at h
        rw [← h.2]
        exact ⟨rfl, rfl⟩

/-- Claim C7 witness: a concrete insert into a fresh 10×10 bin returns
`ok` and leaves the unassigned `x`/`y` attributes absent. -/
theorem bin_stats_raises_attr_error_witness :
    (mkSkyline 10 10 false true .bottom_left).x = none ∧
    ∀ s', Skyline.insert (mkSkyline 10 10 false true .bottom_left) ⟨3, 3, 0, 0, false⟩ =
      .ok (true, s') → s'.x = none ∧ s'.y = none := by
  refine ⟨rfl, fun s' h => ?_⟩
  have := bin_stats_raises_attr_error.2 (mkSkyline 10 10 false true .bottom_left)
    ⟨3, 3, 0, 0, false⟩ true s' h
  simpa [mkSkyline] using this

/-- A 10×10 first-fit manager over skyline bins without rotation. -/
def c4Manager : BinManager :=
  mkBinManager 10 10 .bin_first_fit .bottom_left "default" false true true true .desca

/-- An item wider than the bin. -/
def c4Item : Item := ⟨11, 1, 0, 0, false⟩

/-- Claim C4 (code bug): `_bin_first_fit` on an item that exceeds the bin
dimensions returns normally — the existing bin reports no-fit, exactly one
fresh bin is opened, the fresh bin's failed insert is silently ignored and
no error of any kind is raised, so the item ends up in no bin at all
(the claim and spec §4.6/§7 require a fatal input error here). -/
theorem bin_first_fit_oversized_silent :
    (BinManager._bin_first_fit c4Manager c4Item).map
        (fun m' => (m'.bins.length, m'.bins.map Skyline.items)) =
      .ok (2, [[], []]) := by rfl

/-- The first-fit loop never changes the number of existing bins. -/
theorem firstFitLoop_length (it : Item) :
    ∀ (l l' : List Skyline) (f : Bool),
      firstFitLoop it l = .ok (f, l') → l'.length = l.length := by
  intro l
  induction l with
  | nil =>
    intro l' f h
    simp only [firstFitLoop, Except.ok.injEq, Prod.mk.injEq] at h
    rw [← h.2]
  | cons b rest ih =>
    intro l' f h
    simp only [firstFitLoop] at h
    rcases hb : Skyline.insert b it with e | ⟨res, b'⟩
    · simp only [hb] at h
      exact absurd h (by simp)
    · rcases res with _ | _
      · simp only [hb] at h
        rcases hr : firstFitLoop it rest with e | ⟨f2, rest'⟩
        · simp only [hr] at h
          exact absurd h (by simp)
        · simp only [hr, Except.ok.injEq, Prod.mk.injEq] at h
          rw [← h.2]
          simp [ih rest' f2 hr]
      · simp only [hb, Except.ok.injEq, Prod.mk.injEq] at h
        rw [← h.2]
        simp

/-- `_bin_first_fit` keeps the bin list non-empty. -/
theorem bin_first_fit_preserves_nonempty (m : BinManager) (it : Item)
    (m' : BinManager) (h : BinManager._bin_first_fit m it = .ok m')
    (hne : m.bins ≠ []) : m'.bins ≠ [] := by
  unfold BinManager._bin_first_fit at h
  rcases hl : firstFitLoop it m.bins with e | ⟨f, bins'⟩
  · simp only [hl] at h
    exact absurd h (by simp)
  · rcases f with _ | _
    · simp only [hl] at h
      rcases hi : Skyline.insert (BinManager._bin_factory m) it with e | ⟨r2, nb⟩
      · simp only [hi] at h
        exact absurd h (by simp)
      · simp only [hi, Except.ok.injEq] at h
        rw [← h]
        simp
    · simp only [hl, Except.ok.injEq] at h
      rw [← h]
      have hlen := firstFitLoop_length it m.bins bins' true hl
      intro hc
      apply hne
      simp only at hc
      rw [hc] at hlen
      exact List.length_eq_zero.mp hlen.symm

/-- `_bin_best_fit` keeps the bin list non-empty. -/
theorem bin_best_fit_preserves_nonempty (m : BinManager) (it : Item) (r : Bool)
    (m' : BinManager) (h : BinManager._bin_best_fit m it = .ok (r, m'))
    (hne : m.bins ≠ []) : m'.bins ≠ [] := by
  unfold BinManager._bin_best_fit at h
  dsimp only at h
  split at h
  · exact absurd h (by simp)
  · rcases hm2 : pyMinBy lexLtII (fun c => c.1) (BinManager.scores m it) with _ | ⟨sc, i⟩
    · simp only [hm2] at h
      rcases hi : Skyline.insert (BinManager._bin_factory m) it with e | ⟨r2, nb⟩
      · simp only [hi] at h
        exact absurd h (by simp)
      · simp only [hi, Except.ok.injEq, Prod.mk.injEq] at h
        rw [← h.2]
        simp
    · simp only [hm2] at h
      rcases hi : Skyline.insert (m.bins.getD i (BinManager._bin_factory m)) it with e | ⟨r2, b'⟩
      · simp only [hi] at h
        exact absurd h (by simp)
      · simp only [hi, Except.ok.injEq, Prod.mk.injEq] at h
        rw [← h.2]
        intro hc
        apply hne
        simp only at hc
        have : (m.bins.set i b').length = 0 := by rw [hc]; rfl
        rw [List.length_set] at this
        exact List.length_eq_zero.mp this

/-- One dispatch step keeps the bin list non-empty. -/
theorem dispatch_preserves_nonempty (m : BinManager) (it : Item)
    (m' : BinManager) (h : BinManager.dispatch m it = .ok m')
    (hne : m.bins ≠ []) : m'.bins ≠ [] := by
  unfold BinManager.dispatch at h
  rcases halgo : m.bin_algo with _ | _
  · rw [halgo] at h
    rcases hb : BinManager._bin_best_fit m it with e | ⟨r, m2⟩
    · simp only [hb] at h
      exact absurd h (by simp)
    · simp only [hb, Except.ok.injEq] at h
      rw [← h]
      exact bin_best_fit_preserves_nonempty m it r m2 hb hne
  · rw [halgo] at h
    exact bin_first_fit_preserves_nonempty m it m' h hne

/-- The execute loop keeps the bin list non-empty. -/
theorem executeLoop_preserves_nonempty :
    ∀ (l : List Item) (m m' : BinManager),
      executeLoop l m = .ok m' → m.bins ≠ [] → m'.bins ≠ [] := by
  intro l
  induction l with
  | nil =>
    intro m m' h hne
    simp only [executeLoop, Except.ok.injEq] at h
    rw [← h]
    exact hne
  | cons it rest ih =>
    intro m m' h hne
    simp only [executeLoop] at h
    rcases hd : BinManager.dispatch m it with e | m2
    · simp only [hd] at h
      exact absurd h (by simp)
    · simp only [hd] at h
      exact ih m2 m' h (dispatch_preserves_nonempty m it m2 hd hne)

/-- Claim C10: right after construction the manager holds exactly one bin,
the engine built by `_bin_factory` from the configured dimensions and
options, and every operation of the manager (`add_items`, the two
dispatchers, `execute`) preserves the non-emptiness of `bins`. -/
theorem binmanager_bins_nonempty :
    (∀ (w h : Int) (algo : BinAlgo) (heur : SkyHeuristic) (sh : String)
        (rot rm wm srt : Bool) (sk : SortKey),
      (mkBinManager w h algo heur sh rot rm wm srt sk).bins =
        [BinManager._bin_factory (mkBinManager w h algo heur sh rot rm wm srt sk)]) ∧
    (∀ (m : BinManager) (its : List Item), (BinManager.add_items m its).bins = m.bins) ∧
    (∀ (m : BinManager) (it : Item) (m' : BinManager),
      BinManager._bin_first_fit m it = .ok m' → m.bins ≠ [] → m'.bins ≠ []) ∧
    (∀ (m : BinManager) (it : Item) (r : Bool) (m' : BinManager),
      BinManager._bin_best_fit m it = .ok (r, m') → m.bins ≠ [] → m'.bins ≠ []) ∧
    (∀ (m m' : BinManager),
      BinManager.execute m = .ok m' → m.bins ≠ [] → m'.bins ≠ []) := by
  refine ⟨fun w h algo heur sh rot rm wm srt sk => rfl,
          fun m its => ?_,
          bin_first_fit_preserves_nonempty,
          bin_best_fit_preserves_nonempty,
          fun m m' h hne => executeLoop_preserves_nonempty m.items m m' h hne⟩
  unfold BinManager.add_items
  dsimp only
  split <;> rfl

/-- A manager with one pending item, for the C10 witness. -/
def c10Manager : BinManager :=
  BinManager.add_items
    (mkBinManager 10 10 .bin_first_fit .bottom_left "default" false true true false .desca)
    [⟨2, 2, 0, 0, false⟩]

/-- The state after executing `c10Manager`, extracted from the run. -/
def c10Executed : BinManager :=
  (BinManager.execute c10Manager).toOption.getD c10Manager

/-- Claim C10 witness: a concrete run of `execute` succeeds and leaves the
bin list non-empty. -/
theorem binmanager_bins_nonempty_witness :
    BinManager.execute c10Manager = .ok c10Executed ∧ c10Executed.bins ≠ [] :=
  ⟨by rfl, binmanager_bins_nonempty.2.2.2.2 c10Manager c10Executed (by rfl) (by decide)⟩

/-- Folding `max` over segment heights never decreases the accumulator. -/
theorem le_foldl_maxY : ∀ (l : List SkylineSegment) (a : Int),
    a ≤ l.foldl (fun acc t => max acc t.y) a := by
  intro l
  induction l with
  | nil => intro a; exact le_refl a
  | cons s rest ih =>
    intro a
    calc a ≤ max a s.y := le_max_left a s.y
    _ ≤ rest.foldl (fun acc t => max acc t.y) (max a s.y) := ih (max a s.y)

/-- The `_check_fit` loop computes the spanned prefix, its running maximum
height, and the height check on it — provided the accumulator already
passed the height check. -/
theorem checkFitLoop_spec (binH itemH : Int) :
    ∀ (segs : List SkylineSegment) (w y0 : Int), ¬ binH < y0 + itemH →
      checkFitLoop binH itemH segs w y0 =
        match spannedPrefix w segs with
        | none => none
        | some sp =>
          let yv := sp.foldl (fun a t => max a t.y) y0
          if binH < yv + itemH then none else some yv := by
  intro segs
  induction segs with
  | nil =>
    intro w y0 h0
    by_cases hw : w ≤ 0
    · simp [checkFitLoop, spannedPrefix, hw, h0]
    · simp [checkFitLoop, spannedPrefix, hw]
  | cons s rest ih =>
    intro w y0 h0
    have hstep : checkFitLoop binH itemH (s :: rest) w y0 =
        if w ≤ 0 then some y0
        else
          if binH < max y0 s.y + itemH then none
          else checkFitLoop binH itemH rest (w - s.width) (max y0 s.y) := rfl
    have hspan : spannedPrefix w (s :: rest) =
        if w ≤ 0 then some []
        else (spannedPrefix (w - s.width) rest).map (s :: ·) := rfl
    by_cases hw : w ≤ 0
    · rw [hstep, hspan]
      simp [hw, h0]
    · rw [hstep, hspan, if_neg hw, if_neg hw]
      by_cases hy : binH < max y0 s.y + itemH
      · rw [if_pos hy]
        cases hin : spannedPrefix (w - s.width) rest with
        | none => simp
        | some sp' =>
          simp only [Option.map_some']
          have hle := le_foldl_maxY sp' (max y0 s.y)
          have : binH < sp'.foldl (fun a t => max a t.y) (max y0 s.y) + itemH := by omega
          simp [List.foldl_cons, this]
      · rw [if_neg hy, ih (w - s.width) (max y0 s.y) hy]
        cases hin : spannedPrefix (w - s.width) rest with
        | none => simp
        | some sp' => simp [List.foldl_cons]

/-- Claim C2: for a valid segment index and an item width of at least one
(the item data-model invariant), `_check_fit(w, h, i)` agrees exactly with
the specification: starting at `x = seg[i].x`, accumulate segment widths
from segment `i` until their sum is at least `w`, failing if the skyline
ends first; with `y` the maximum segment height over the spanned segments,
the fit succeeds iff `x + w ≤ binW` and `y + h ≤ binH`, and then returns
that `y`. -/
theorem check_fit_matches_spec (sky : List SkylineSegment) (binW binH w h : Int)
    (i : Nat) (hi : i < sky.length) (hw : 1 ≤ w) :
    Skyline._check_fit sky binW binH w h i = specCheckFit sky binW binH w h i := by
  have hd : sky.drop i ≠ [] := by
    intro hc
    rw [List.drop_eq_nil_iff] at hc
    omega
  rcases hdd : sky.drop i with _ | ⟨s0, rest⟩
  · exact absurd hdd hd
  · unfold Skyline._check_fit specCheckFit
    rw [hdd]
    dsimp only
    have hw0 : ¬ (w : Int) ≤ 0 := by omega
    have houter : spannedPrefix w (s0 :: rest) =
        (spannedPrefix (w - s0.width) rest).map (s0 :: ·) := by
      have : spannedPrefix w (s0 :: rest) =
          if w ≤ 0 then some []
          else (spannedPrefix (w - s0.width) rest).map (s0 :: ·) := rfl
      rw [this, if_neg hw0]
    rw [houter]
    by_cases hbw : binW < s0.x + w
    · rw [if_pos hbw]
      cases hin : spannedPrefix (w - s0.width) rest with
      | none => simp
      | some sp' =>
        have : ¬ (s0.x + w ≤ binW ∧ maxYlist (s0 :: sp') + h ≤ binH) := by
          intro hc
          omega
        simp [this]
    · rw [if_neg hbw]
      by_cases hby : binH < s0.y + h
      · rw [if_pos hby]
        cases hin : spannedPrefix (w - s0.width) rest with
        | none => simp
        | some sp' =>
          have hle := le_foldl_maxY sp' s0.y
          have : ¬ (s0.x + w ≤ binW ∧ maxYlist (s0 :: sp') + h ≤ binH) := by
            intro hc
            simp only [maxYlist] at hc
            omega
          simp [this]
      · rw [if_neg hby, checkFitLoop_spec binH h (s0 :: rest) w s0.y hby, houter]
        cases hin : spannedPrefix (w - s0.width) rest with
        | none => simp
        | some sp' =>
          simp only [Option.map_some']
          have hfold : (s0 :: sp').foldl (fun a t => max a t.y) s0.y = maxYlist (s0 :: sp') := by
            simp [maxYlist, List.foldl_cons, max_self]
          by_cases hfin : binH < maxYlist (s0 :: sp') + h
          · have : ¬ (s0.x + w ≤ binW ∧ maxYlist (s0 :: sp') + h ≤ binH) := by
              intro hc
              omega
            simp [hfold, hfin, this]
          · have : s0.x + w ≤ binW ∧ maxYlist (s0 :: sp') + h ≤ binH := by omega
            simp [hfold, hfin, this]

/-- Claim C2 witness: a concrete fit test spanning two segments of a 10×10
bin: the placement height is the maximum of the two segment heights. -/
theorem check_fit_matches_spec_witness :
    Skyline._check_fit [⟨0, 3, 3⟩, ⟨3, 0, 7⟩] 10 10 5 2 0 =
      specCheckFit [⟨0, 3, 3⟩, ⟨3, 0, 7⟩] 10 10 5 2 0 ∧
    Skyline._check_fit [⟨0, 3, 3⟩, ⟨3, 0, 7⟩] 10 10 5 2 0 = some 3 :=
  ⟨check_fit_matches_spec [⟨0, 3, 3⟩, ⟨3, 0, 7⟩] 10 10 5 2 0 (by decide) (by decide),
   by decide⟩

/-- In a tiling chain every member starts at or after the chain origin. -/
theorem tiles_mem_lb : ∀ (l : List SkylineSegment) (c e : Int),
    tilesFrom c l e → ∀ t ∈ l, c ≤ t.x := by
  intro l
  induction l with
  | nil => intro c e _ t ht; exact absurd ht (List.not_mem_nil t)
  | cons s rest ih =>
    intro c e hch t ht
    obtain ⟨hx, hwpos, hrest⟩ := hch
    rcases List.mem_cons.mp ht with rfl | hmem
    · omega
    · have := ih (c + s.width) e hrest t hmem
      omega

/-- Dropping `i` segments of a tiling chain leaves a tiling chain starting
at the `i`-th segment's own `x`. -/
theorem tiles_drop : ∀ (l : List SkylineSegment) (x0 e : Int),
    tilesFrom x0 l e → ∀ (i : Nat) (hi : i < l.length),
      tilesFrom ((l.get ⟨i, hi⟩).x) (l.drop i) e := by
  intro l
  induction l with
  | nil => intro x0 e _ i hi; exact absurd hi (by simp)
  | cons s rest ih =>
    intro x0 e hch i hi
    obtain ⟨hx, hwpos, hrest⟩ := hch
    cases i with
    | zero =>
      show tilesFrom s.x (s :: rest) e
      exact ⟨rfl, hwpos, by rw [hx]; exact hrest⟩
    | succ n =>
      exact ih (x0 + s.width) e hrest n (by simpa using hi)

/-- The `calc_waste` loop over a tiling chain equals the spec-side sum
over the segments overlapping the open interval `(left, right)`. -/
theorem calcWasteLoop_spec : ∀ (segs : List SkylineSegment) (cur e left right y : Int),
    tilesFrom cur segs e → left ≤ cur →
    calcWasteLoop left right y segs =
      ((segs.filter
          (fun seg => decide (seg.x < right) && decide (left < seg.x + seg.width))).map
        (fun seg => (min right (seg.x + seg.width) - max left seg.x) * (y - seg.y))).sum := by
  intro segs
  induction segs with
  | nil => intro cur e left right y _ _; rfl
  | cons s rest ih =>
    intro cur e left right y hch hle
    obtain ⟨hx, hwpos, hrest⟩ := hch
    by_cases hbr : s.x ≥ right ∨ s.x + s.width ≤ left
    · have hsr : right ≤ s.x := by
        rcases hbr with h1 | h2
        · exact h1
        · omega
      have hfilter : (s :: rest).filter
          (fun seg => decide (seg.x < right) && decide (left < seg.x + seg.width)) = [] := by
        rw [List.filter_eq_nil_iff]
        intro t ht
        rcases List.mem_cons.mp ht with rfl | hmem
        · simp only [Bool.and_eq_true, decide_eq_true_eq]
          intro hc
          omega
        · have := tiles_mem_lb rest (cur + s.width) e hrest t hmem
          simp only [Bool.and_eq_true, decide_eq_true_eq]
          intro hc
          omega
      rw [hfilter]
      simp only [calcWasteLoop, if_pos hbr, List.map_nil, List.sum_nil]
    · push_neg at hbr
      obtain ⟨hlt, hov⟩ := hbr
      have hmax : max left s.x = s.x := by omega
      have hkeep : (decide (s.x < right) && decide (left < s.x + s.width)) = true := by
        simp only [Bool.and_eq_true, decide_eq_true_eq]
        omega
      simp only [calcWasteLoop,
        if_neg (show ¬ (s.x ≥ right ∨ s.x + s.width ≤ left) by omega),
        List.filter_cons, hkeep, if_true, List.map_cons, List.sum_cons]
      rw [ih (cur + s.width) e left right y hrest (by omega), hmax]

/-- Unfolding of the strict lexicographic comparison. -/
theorem lexLtII_true_iff (a b : Int × Int) :
    lexLtII a b = true ↔ (a.1 < b.1 ∨ (a.1 = b.1 ∧ a.2 < b.2)) := by
  simp [lexLtII]

/-- Unfolding of the negated lexicographic comparison. -/
theorem lexLtII_false_iff (a b : Int × Int) :
    lexLtII a b = false ↔ (b.1 < a.1 ∨ (b.1 = a.1 ∧ b.2 ≤ a.2)) := by
  rw [← Bool.not_eq_true, lexLtII_true_iff]
  constructor <;> intro h <;> omega

/-- The comparison is irreflexive. -/
theorem lexLtII_irrefl (a : Int × Int) : lexLtII a a = false := by
  rw [lexLtII_false_iff]
  omega

/-- If `x` strictly improves `a` and `c` does not, then `c` does not
strictly improve `x` either. -/
theorem lexLtII_shift (x a c : Int × Int)
    (h1 : lexLtII x a = true) (h2 : lexLtII c a = false) :
    lexLtII c x = false := by
  rw [lexLtII_true_iff] at h1
  rw [lexLtII_false_iff] at h2 ⊢
  omega

/-- Reduce an `if` on a boolean known to be false. -/
theorem ifBool_neg {α : Sort _} {b : Bool} (x y : α) (h : b = false) :
    (if b = true then x else y) = y := by subst h; rfl

/-- Reduce an `if` on a boolean known to be true. -/
theorem ifBool_pos {α : Sort _} {b : Bool} (x y : α) (h : b = true) :
    (if b = true then x else y) = x := by subst h; rfl

/-- Through the Python `min` fold, nothing that failed to improve the
accumulator can improve the final result. -/
theorem pyFold_no_smaller {α : Type} (key : α → Int × Int) :
    ∀ (l : List α) (acc c : α), lexLtII (key c) (key acc) = false →
      lexLtII (key c)
        (key (l.foldl (fun acc x => if lexLtII (key x) (key acc) then x else acc) acc)) =
      false := by
  intro l
  induction l with
  | nil => intro acc c h; exact h
  | cons x rest ih =>
    intro acc c h
    simp only [List.foldl_cons]
    rcases hx : lexLtII (key x) (key acc) with _ | _
    · rw [if_neg Bool.false_ne_true]
      exact ih acc c h
    · rw [if_pos rfl]
      exact ih x c (lexLtII_shift (key x) (key acc) (key c) hx h)

/-- No list element strictly improves the result of the Python `min`
fold. -/
theorem pyFold_elem {α : Type} (key : α → Int × Int) :
    ∀ (l : List α) (acc c : α), c ∈ l →
      lexLtII (key c)
        (key (l.foldl (fun acc x => if lexLtII (key x) (key acc) then x else acc) acc)) =
      false := by
  intro l
  induction l with
  | nil => intro acc c h; exact absurd h (List.not_mem_nil c)
  | cons x rest ih =>
    intro acc c hc
    simp only [List.foldl_cons]
    rcases List.mem_cons.mp hc with rfl | hmem
    · rcases hx : lexLtII (key c) (key acc) with _ | _
      · rw [if_neg Bool.false_ne_true]
        exact pyFold_no_smaller key rest acc c hx
      · rw [if_pos rfl]
        exact pyFold_no_smaller key rest c c (lexLtII_irrefl (key c))
    · exact ih _ c hmem

/-- The Python `min` fold result is the accumulator or a list element. -/
theorem pyFold_mem {α : Type} (key : α → Int × Int) :
    ∀ (l : List α) (acc : α),
      l.foldl (fun acc x => if lexLtII (key x) (key acc) then x else acc) acc = acc ∨
      l.foldl (fun acc x => if lexLtII (key x) (key acc) then x else acc) acc ∈ l := by
  intro l
  induction l with
  | nil => intro acc; exact Or.inl rfl
  | cons x rest ih =>
    intro acc
    simp only [List.foldl_cons]
    rcases hx : lexLtII (key x) (key acc) with _ | _
    · rw [if_neg Bool.false_ne_true]
      rcases ih acc with h | h
      · exact Or.inl h
      · exact Or.inr (List.mem_cons_of_mem x h)
    · rw [if_pos rfl]
      rcases ih x with h | h
      · exact Or.inr (by rw [h]; exact List.mem_cons_self x rest)
      · exact Or.inr (List.mem_cons_of_mem x h)

/-- Python's `min` returns a member of the list. -/
theorem pyMinBy_mem {α : Type} (key : α → Int × Int) (l : List α) (a : α)
    (h : pyMinBy lexLtII key l = some a) : a ∈ l := by
  cases l with
  | nil => exact absurd h (by simp [pyMinBy])
  | cons x rest =>
    simp only [pyMinBy, Option.some.injEq] at h
    rcases pyFold_mem key rest x with hm | hm
    · rw [← h, hm]
      exact List.mem_cons_self x rest
    · rw [← h]
      exact List.mem_cons_of_mem x hm

/-- No list element's key strictly improves the key of Python's `min`. -/
theorem pyMinBy_min {α : Type} (key : α → Int × Int) (l : List α) (a : α)
    (h : pyMinBy lexLtII key l = some a) :
    ∀ c ∈ l, lexLtII (key c) (key a) = false := by
  cases l with
  | nil => exact absurd h (by simp [pyMinBy])
  | cons x rest =>
    simp only [pyMinBy, Option.some.injEq] at h
    intro c hc
    rw [← h]
    rcases List.mem_cons.mp hc with rfl | hmem
    · exact pyFold_no_smaller key rest c c (lexLtII_irrefl (key c))
    · exact pyFold_elem key rest x c hmem

/-- The fitting condition a non-rotated candidate tuple encodes: the
segment fits the item as-is at index `i`, with the tuple's `y` and
score. -/
def candCondNR (s : Skyline) (it : Item)
    (c : (Int × Int) × SkylineSegment × Int × Bool) (i : Nat) : Prop :=
  c.2.2.2 = false ∧
  Skyline._check_fit s.skyline s.width s.height it.width it.height i = some c.2.2.1 ∧
  c.1 = scoreOf s.heuristic s.skyline it c.2.2.1 i false

/-- The fitting condition a rotated candidate tuple encodes: rotation is
enabled and the segment fits the rotated item at index `i`, with the
tuple's `y` and score. -/
def candCondR (s : Skyline) (it : Item)
    (c : (Int × Int) × SkylineSegment × Int × Bool) (i : Nat) : Prop :=
  c.2.2.2 = true ∧ s.rotation = true ∧
  Skyline._check_fit s.skyline s.width s.height it.height it.width i = some c.2.2.1 ∧
  c.1 = scoreOf s.heuristic s.skyline it c.2.2.1 i true

/-- Membership in the candidate enumeration from offset `k`: exactly the
fitting (segment, orientation) pairs. -/
theorem candidatesFrom_mem_iff (s : Skyline) (it : Item) :
    ∀ (l : List SkylineSegment) (k : Nat) (c : (Int × Int) × SkylineSegment × Int × Bool),
      c ∈ candidatesFrom s it k l ↔
        ∃ j, l.get? j = some c.2.1 ∧ (candCondNR s it c (k + j) ∨ candCondR s it c (k + j)) := by
  intro l
  induction l with
  | nil =>
    intro k c
    simp [candidatesFrom]
  | cons seg rest ih =>
    intro k c
    simp only [candidatesFrom, List.mem_append]
    constructor
    · intro h
      rcases h with (h1 | h2) | h3
      · refine ⟨0, ?_, ?_⟩
        · rcases hcf : Skyline._check_fit s.skyline s.width s.height it.width it.height k with
            _ | y
          · rw [hcf] at h1; exact absurd h1 (List.not_mem_nil c)
          · rw [hcf] at h1
            simp only [List.mem_singleton] at h1
            rw [h1]; rfl
        · rcases hcf : Skyline._check_fit s.skyline s.width s.height it.width it.height k with
            _ | y
          · rw [hcf] at h1; exact absurd h1 (List.not_mem_nil c)
          · rw [hcf] at h1
            simp only [List.mem_singleton] at h1
            subst h1
            exact Or.inl ⟨rfl, by rw [Nat.add_zero]; exact hcf, by rw [Nat.add_zero]⟩
      · rcases hrot : s.rotation with _ | _
        · rw [hrot] at h2; exact absurd h2 (List.not_mem_nil c)
        · rw [hrot] at h2
          rcases hcf : Skyline._check_fit s.skyline s.width s.height it.height it.width k with
            _ | y
          · rw [hcf] at h2; simp at h2
          · rw [hcf] at h2
            simp at h2
            subst h2
            exact ⟨0, rfl, Or.inr ⟨rfl, hrot, by rw [Nat.add_zero]; exact hcf, by rw [Nat.add_zero]⟩⟩
      · obtain ⟨j, hj, hcond⟩ := (ih (k + 1) c).mp h3
        refine ⟨j + 1, by simpa using hj, ?_⟩
        have : k + 1 + j = k + (j + 1) := by omega
        rw [this] at hcond
        exact hcond
    · rintro ⟨j, hj, hcond⟩
      cases j with
      | zero =>
        simp only [List.get?_cons_zero, Option.some.injEq] at hj
        rcases hcond with ⟨hrot, hcf, hsc⟩ | ⟨hrot, hren, hcf, hsc⟩
        · left; left
          rw [Nat.add_zero] at hcf hsc
          rw [hcf]
          have : c = (scoreOf s.heuristic s.skyline it c.2.2.1 k false, seg, c.2.2.1, false) := by
            obtain ⟨c1, c2, c3, c4⟩ := c
            simp only at hsc hrot hj ⊢
            rw [hsc, hrot, hj]
          rw [this]
          exact List.mem_singleton_self _
        · left; right
          rw [Nat.add_zero] at hcf hsc
          rw [hren, hcf]
          have : c = (scoreOf s.heuristic s.skyline it c.2.2.1 k true, seg, c.2.2.1, true) := by
            obtain ⟨c1, c2, c3, c4⟩ := c
            simp only at hsc hrot hj ⊢
            rw [hsc, hrot, hj]
          rw [this]
          exact List.mem_singleton_self _
      | succ n =>
        right
        apply (ih (k + 1) c).mpr
        refine ⟨n, by simpa using hj, ?_⟩
        have : k + (n + 1) = k + 1 + n := by omega
        rw [this] at hcond
        exact hcond

/-- `scoreBL` part of Claim C6. -/
theorem scoreBL_spec (segs : List SkylineSegment) (it : Item) (y : Int) (i : Nat)
    (rot : Bool) (hi : i < segs.length) :
    scoreBL segs it y i rot =
      (y + (if rot then it.width else it.height), (segs.get ⟨i, hi⟩).width) := by
  have hget : segs.getD i ⟨0, 0, 0⟩ = segs.get ⟨i, hi⟩ := by
    rw [List.getD_eq_getElem?_getD, List.getElem?_eq_getElem hi]
    rfl
  unfold scoreBL
  rw [hget]
  cases rot
  · simp only [Bool.false_eq_true, if_false]
    rw [Int.add_comm]
  · simp only [if_true]
    rw [Int.add_comm]

/-- `scoreBF` part of Claim C6. -/
theorem scoreBF_spec (segs : List SkylineSegment) (it : Item) (y : Int) (i : Nat)
    (rot : Bool) (hi : i < segs.length) (x0 endX : Int) (hch : tilesFrom x0 segs endX) :
    scoreBF segs it y i rot =
      (specWastedArea segs i ((segs.get ⟨i, hi⟩).x)
          ((segs.get ⟨i, hi⟩).x + (if rot then it.height else it.width)) y,
       y + (if rot then it.width else it.height)) := by
  have hdrop := tiles_drop segs x0 endX hch i hi
  rcases hdd : segs.drop i with _ | ⟨s0, rest⟩
  · rw [List.drop_eq_nil_iff] at hdd
    omega
  · have hs0 : segs.get ⟨i, hi⟩ = s0 := by
      have h2 := List.drop_eq_getElem_cons hi
      rw [hdd] at h2
      have := (List.cons.injEq _ _ _ _).mp h2.symm
      rw [List.get_eq_getElem]
      exact this.1
    rw [hdd] at hdrop
    rw [hs0] at hdrop ⊢
    unfold scoreBF calc_waste specWastedArea
    rw [hdd]
    cases rot
    · simp only [Bool.false_eq_true, if_false]
      rw [calcWasteLoop_spec (s0 :: rest) s0.x endX s0.x (s0.x + it.width) y hdrop
        (le_refl s0.x), Int.add_comm y it.height]
    · simp only [if_true]
      rw [calcWasteLoop_spec (s0 :: rest) s0.x endX s0.x (s0.x + it.height) y hdrop
        (le_refl s0.x), Int.add_comm y it.width]

/-- `_find_best_score` selection part of Claim C6. -/
theorem find_best_score_selects_min (s : Skyline) (it : Item) (sc : Int × Int)
    (seg : SkylineSegment) (rot : Bool) (y : Int)
    (h : Skyline._find_best_score s it = some (sc, seg, rot, y)) :
    (sc, seg, y, rot) ∈ skyCandidates s it ∧
      ∀ c ∈ skyCandidates s it, lexLtII c.1 sc = false := by
  unfold Skyline._find_best_score at h
  rcases hm : pyMinBy lexLtII (fun c => c.1) (skyCandidates s it) with _ | ⟨sc', seg', y', rot'⟩
  · rw [hm] at h
    exact absurd h (by simp)
  · rw [hm] at h
    simp only [Option.some.injEq, Prod.mk.injEq] at h
    obtain ⟨h1, h2, h3, h4⟩ := h
    subst h1; subst h2; subst h3; subst h4
    exact ⟨pyMinBy_mem (fun c : (Int × Int) × SkylineSegment × Int × Bool => c.1) _ _ hm,
      pyMinBy_min (fun c : (Int × Int) × SkylineSegment × Int × Bool => c.1) _ _ hm⟩

/-- Claim C6: `scoreBL` returns `(y + item height, segment width)` with
the post-rotation height for a rotated candidate; `scoreBF` returns
`(wasted area, y + item height)` where the wasted area is the sum over
the spanned segments of overlap width times `y − seg.y` (stated for
skylines satisfying the tiling invariant); `_find_best_score` returns a
candidate of lexicographically minimal score; and the candidates are
exactly the fitting (segment, orientation) pairs. -/
theorem skyline_scoring_matches_spec :
    (∀ (segs : List SkylineSegment) (it : Item) (y : Int) (i : Nat) (rot : Bool)
        (hi : i < segs.length),
      scoreBL segs it y i rot =
        (y + (if rot then it.width else it.height), (segs.get ⟨i, hi⟩).width)) ∧
    (∀ (segs : List SkylineSegment) (it : Item) (y : Int) (i : Nat) (rot : Bool)
        (hi : i < segs.length) (x0 endX : Int), tilesFrom x0 segs endX →
      scoreBF segs it y i rot =
        (specWastedArea segs i ((segs.get ⟨i, hi⟩).x)
            ((segs.get ⟨i, hi⟩).x + (if rot then it.height else it.width)) y,
         y + (if rot then it.width else it.height))) ∧
    (∀ (s : Skyline) (it : Item) (sc : Int × Int) (seg : SkylineSegment) (rot : Bool) (y : Int),
      Skyline._find_best_score s it = some (sc, seg, rot, y) →
        (sc, seg, y, rot) ∈ skyCandidates s it ∧
        ∀ c ∈ skyCandidates s it, lexLtII c.1 sc = false) ∧
    (∀ (s : Skyline) (it : Item) (c : (Int × Int) × SkylineSegment × Int × Bool),
      c ∈ skyCandidates s it ↔
        ∃ i, s.skyline.get? i = some c.2.1 ∧ (candCondNR s it c i ∨ candCondR s it c i)) := by
  refine ⟨scoreBL_spec, fun segs it y i rot hi x0 endX hch =>
    scoreBF_spec segs it y i rot hi x0 endX hch,
    find_best_score_selects_min, fun s it c => ?_⟩
  have := candidatesFrom_mem_iff s it s.skyline 0 c
  simpa [skyCandidates] using this

/-- Claim C6 witness: concrete scores on the two-segment skyline
`[(0,3,3),(3,0,7)]` of a 10×10 bin and a concrete best-score selection on
a fresh engine. -/
theorem skyline_scoring_matches_spec_witness :
    scoreBL [⟨0, 3, 3⟩, ⟨3, 0, 7⟩] ⟨5, 2, 0, 0, false⟩ 3 0 false =
      (3 + 2, (([⟨0, 3, 3⟩, ⟨3, 0, 7⟩] : List SkylineSegment).get ⟨0, by decide⟩).width) ∧
    scoreBF [⟨0, 3, 3⟩, ⟨3, 0, 7⟩] ⟨5, 2, 0, 0, false⟩ 3 0 false =
      (specWastedArea [⟨0, 3, 3⟩, ⟨3, 0, 7⟩] 0
          ((([⟨0, 3, 3⟩, ⟨3, 0, 7⟩] : List SkylineSegment).get ⟨0, by decide⟩).x)
          ((([⟨0, 3, 3⟩, ⟨3, 0, 7⟩] : List SkylineSegment).get ⟨0, by decide⟩).x + 5) 3,
       3 + 2) ∧
    ((3, 10), (⟨0, 0, 10⟩ : SkylineSegment), 0, false) ∈
      skyCandidates (mkSkyline 10 10 true true .bottom_left) ⟨3, 3, 0, 0, false⟩ := by
  refine ⟨skyline_scoring_matches_spec.1 _ _ 3 0 false (by decide),
    skyline_scoring_matches_spec.2.1 _ _ 3 0 false (by decide) 0 10 (by decide),
    (skyline_scoring_matches_spec.2.2.1 (mkSkyline 10 10 true true .bottom_left)
      ⟨3, 3, 0, 0, false⟩ (3, 10) ⟨0, 0, 10⟩ false 0 (by rfl)).1⟩

/-- A list member has an index under `indexOfSeg`. -/
theorem indexOfSeg_of_mem : ∀ (l : List SkylineSegment) (t : SkylineSegment),
    t ∈ l → ∃ j, indexOfSeg l t = some j := by
  intro l
  induction l with
  | nil => intro t ht; exact absurd ht (List.not_mem_nil t)
  | cons a rest ih =>
    intro t ht
    by_cases hat : a = t
    · exact ⟨0, by simp [indexOfSeg, hat]⟩
    · have hmem : t ∈ rest := by
        rcases List.mem_cons.mp ht with rfl | hmem
        · exact absurd rfl hat
        · exact hmem
      obtain ⟨j, hj⟩ := ih t hmem
      exact ⟨j + 1, by simp [indexOfSeg, hat, hj]⟩

/-- `_merge_segments` can only raise `IndexError`. -/
theorem merge_segments_error_eq : ∀ (l : List SkylineSegment) (e : PyErr),
    Skyline._merge_segments l = .error e → e = .indexError := by
  intro l e h
  cases l with
  | nil =>
    simp only [Skyline._merge_segments, Except.error.injEq] at h
    exact h.symm
  | cons s rest => exact absurd h (by simp [Skyline._merge_segments])

/-- A successful `_find_best_score` returns a segment of the skyline. -/
theorem find_best_score_seg_mem (s : Skyline) (it : Item) (sc : Int × Int)
    (seg : SkylineSegment) (rot : Bool) (y : Int)
    (h : Skyline._find_best_score s it = some (sc, seg, rot, y)) :
    seg ∈ s.skyline := by
  have h1 := (find_best_score_selects_min s it sc seg rot y h).1
  obtain ⟨i, hget, _⟩ :=
    (candidatesFrom_mem_iff s it s.skyline 0 (sc, seg, y, rot)).mp h1
  exact List.get?_mem hget

/-- `Skyline.insert` never raises `ValueError`: its only error sites are
the missing-wastemap attribute read (`AttributeError`) and the empty
skyline in `_merge_segments` (`IndexError`); the `SortedList.index`
lookup cannot fail because the chosen segment always belongs to the
skyline. -/
theorem insert_ne_valueError (s : Skyline) (it : Item) :
    Skyline.insert s it ≠ .error .valueError := by
  intro hc
  unfold Skyline.insert at hc
  rcases hwm : s.wastemap with _ | wm
  · simp [hwm] at hc
  · simp only [hwm] at hc
    rcases hg : guilInsert wm it with _ | p
    · simp only [hg] at hc
      rcases hf : Skyline._find_best_score s it with _ | ⟨sc, seg, rot, y⟩
      · simp only [hf] at hc
        exact absurd hc (by simp)
      · simp only [hf] at hc
        have hmem : seg ∈ s.skyline := find_best_score_seg_mem s it sc seg rot y hf
        obtain ⟨j, hj⟩ := indexOfSeg_of_mem s.skyline seg hmem
        unfold Skyline._update_segment at hc
        rcases huse : s.use_waste_map with _ | _
        · simp only [huse, Bool.false_eq_true, if_false] at hc
          split at hc
          · rename_i e hmg
            have := merge_segments_error_eq _ e hmg
            simp only [Except.error.injEq] at hc
            subst hc
            exact absurd this (by simp)
          · exact absurd hc (by simp)
        · simp only [huse, if_true, hj, hwm] at hc
          split at hc
          · rename_i e hmg
            have := merge_segments_error_eq _ e hmg
            simp only [Except.error.injEq] at hc
            subst hc
            exact absurd this (by simp)
          · exact absurd hc (by simp)
    · simp only [hg] at hc
      exact absurd hc (by simp)

/-- Membership in the best-fit score enumeration from offset `k`. -/
theorem scoresFrom_mem_iff (it : Item) :
    ∀ (l : List Skyline) (k : Nat) (p : (Int × Int) × Nat),
      p ∈ scoresFrom it k l ↔
        ∃ j b, l.get? j = some b ∧ p.2 = k + j ∧
          ∃ seg rot y, Skyline._find_best_score b it = some (p.1, seg, rot, y) := by
  intro l
  induction l with
  | nil => intro k p; simp [scoresFrom]
  | cons b rest ih =>
    intro k p
    simp only [scoresFrom, List.mem_append]
    constructor
    · intro h
      rcases h with h1 | h2
      · rcases hf : Skyline._find_best_score b it with _ | ⟨sc, seg, rot, y⟩
        · rw [hf] at h1; exact absurd h1 (List.not_mem_nil p)
        · rw [hf] at h1
          simp only [List.mem_singleton] at h1
          subst h1
          exact ⟨0, b, rfl, by omega, seg, rot, y, hf⟩
      · obtain ⟨j, b2, hj, hk, seg, rot, y, hf⟩ := (ih (k + 1) p).mp h2
        exact ⟨j + 1, b2, by simpa using hj, by omega, seg, rot, y, hf⟩
    · rintro ⟨j, b2, hj, hk, seg, rot, y, hf⟩
      cases j with
      | zero =>
        simp only [List.get?_cons_zero, Option.some.injEq] at hj
        subst hj
        left
        rw [hf]
        have : p = (p.1, k) := by
          obtain ⟨p1, p2⟩ := p
          simp only [Prod.mk.injEq, true_and]
          simp only at hk
          omega
        rw [this]
        exact List.mem_singleton_self _
      | succ n =>
        right
        apply (ih (k + 1) p).mpr
        exact ⟨n, b2, by simpa using hj, by omega, seg, rot, y, hf⟩

/-- `List.getD` through a successful `get?`. -/
theorem getD_of_get? (l : List Skyline) (i : Nat) (b d : Skyline)
    (h : l.get? i = some b) : l.getD i d = b := by
  rw [List.getD_eq_getElem?_getD, ← List.get?_eq_getElem?, h]
  rfl

/-- Claim C5: `_bin_best_fit` raises the fatal input `ValueError` iff the
item fits in no allowed orientation within the bin dimensions; the
collected scores are exactly the bins whose `_find_best_score` reports a
feasible score; when some bin is feasible the item is dispatched (by
`insert`) to the bin of lexicographically lowest score, first index on
ties; and when no bin is feasible a fresh bin is opened, receives the
item and is appended. -/
theorem bin_best_fit_validates_and_dispatches :
    (∀ (m : BinManager) (it : Item),
      BinManager._bin_best_fit m it = .error .valueError ↔ ¬ specFits m it) ∧
    (∀ (m : BinManager) (it : Item) (p : (Int × Int) × Nat),
      p ∈ BinManager.scores m it ↔
        ∃ b, m.bins.get? p.2 = some b ∧
          ∃ seg rot y, Skyline._find_best_score b it = some (p.1, seg, rot, y)) ∧
    (∀ (m : BinManager) (it : Item) (sc : Int × Int) (i : Nat),
      specFits m it →
      pyMinBy lexLtII (fun c => c.1) (BinManager.scores m it) = some (sc, i) →
        (sc, i) ∈ BinManager.scores m it ∧
        (∀ p ∈ BinManager.scores m it, lexLtII p.1 sc = false) ∧
        ∀ (b : Skyline), m.bins.get? i = some b →
          ∀ (r : Bool) (b' : Skyline), Skyline.insert b it = .ok (r, b') →
            BinManager._bin_best_fit m it = .ok (r, { m with bins := m.bins.set i b' })) ∧
    (∀ (m : BinManager) (it : Item),
      specFits m it →
      BinManager.scores m it = [] →
      ∀ (r : Bool) (nb : Skyline),
        Skyline.insert (BinManager._bin_factory m) it = .ok (r, nb) →
          BinManager._bin_best_fit m it = .ok (true, { m with bins := m.bins ++ [nb] })) := by
  refine ⟨fun m it => ?_, fun m it p => ?_, fun m it sc i hfits hmin => ?_, fun m it hfits hsc r nb hins => ?_⟩
  · constructor
    · intro hc
      by_contra hfits
      have hfitsd : (it.width ≤ m.bin_width ∧ it.height ≤ m.bin_height) ∨
          (m.rotation = true ∧ it.height ≤ m.bin_width ∧ it.width ≤ m.bin_height) := hfits
      unfold BinManager._bin_best_fit at hc
      dsimp only at hc
      rw [if_neg (not_not_intro hfitsd)] at hc
      rcases hm2 : pyMinBy lexLtII (fun c => c.1) (BinManager.scores m it) with _ | ⟨sc, i⟩
      · simp only [hm2] at hc
        rcases hi : Skyline.insert (BinManager._bin_factory m) it with e | ⟨r2, nb⟩
        · simp only [hi] at hc
          simp only [Except.error.injEq] at hc
          exact insert_ne_valueError _ it (by rw [hi, hc])
        · simp only [hi] at hc
          exact absurd hc (by simp)
      · simp only [hm2] at hc
        rcases hi : Skyline.insert (m.bins.getD i (BinManager._bin_factory m)) it with e | ⟨r2, b'⟩
        · simp only [hi] at hc
          simp only [Except.error.injEq] at hc
          exact insert_ne_valueError _ it (by rw [hi, hc])
        · simp only [hi] at hc
          exact absurd hc (by simp)
    · intro hnf
      have hnfd : ¬ ((it.width ≤ m.bin_width ∧ it.height ≤ m.bin_height) ∨
          (m.rotation = true ∧ it.height ≤ m.bin_width ∧ it.width ≤ m.bin_height)) := hnf
      unfold BinManager._bin_best_fit
      dsimp only
      rw [if_pos hnfd]
  · have := scoresFrom_mem_iff it m.bins 0 p
    simp only [BinManager.scores]
    rw [this]
    constructor
    · rintro ⟨j, b, hj, hk, seg, rot, y, hf⟩
      exact ⟨b, by rw [hk]; simpa using hj, seg, rot, y, hf⟩
    · rintro ⟨b, hj, seg, rot, y, hf⟩
      exact ⟨p.2, b, hj, by omega, seg, rot, y, hf⟩
  · refine ⟨pyMinBy_mem (fun c : (Int × Int) × Nat => c.1) _ _ hmin,
      pyMinBy_min (fun c : (Int × Int) × Nat => c.1) _ _ hmin,
      fun b hb r b' hins => ?_⟩
    have hfitsd : (it.width ≤ m.bin_width ∧ it.height ≤ m.bin_height) ∨
        (m.rotation = true ∧ it.height ≤ m.bin_width ∧ it.width ≤ m.bin_height) := hfits
    unfold BinManager._bin_best_fit
    dsimp only
    rw [if_neg (not_not_intro hfitsd), hmin]
    dsimp only
    rw [getD_of_get? m.bins i b (BinManager._bin_factory m) hb, hins]
  · have hfitsd : (it.width ≤ m.bin_width ∧ it.height ≤ m.bin_height) ∨
        (m.rotation = true ∧ it.height ≤ m.bin_width ∧ it.width ≤ m.bin_height) := hfits
    unfold BinManager._bin_best_fit
    dsimp only
    rw [if_neg (not_not_intro hfitsd)]
    rw [show pyMinBy lexLtII (fun c : (Int × Int) × Nat => c.1) (BinManager.scores m it) = none by
      rw [hsc]; rfl]
    rw [hins]

/-- A 10×10 best-fit manager over skyline bins without rotation. -/
def c5Manager : BinManager :=
  mkBinManager 10 10 .bin_best_fit .bottom_left "default" false true true false .desca

/-- A small item for the C5 witness. -/
def c5Item : Item := ⟨3, 3, 0, 0, false⟩

/-- The single existing bin of `c5Manager` after receiving `c5Item`,
extracted from the run. -/
def c5BinAfter : Skyline :=
  ((Skyline.insert (BinManager._bin_factory c5Manager) c5Item).toOption.getD
    (true, BinManager._bin_factory c5Manager)).2

/-- Claim C5 witness: on a fresh 10×10 best-fit manager the single
existing bin reports score `(3, 10)` for a 3×3 item and receives it. -/
theorem bin_best_fit_validates_and_dispatches_witness :
    BinManager._bin_best_fit c5Manager c5Item =
      .ok (true, { c5Manager with bins := c5Manager.bins.set 0 c5BinAfter }) :=
  (bin_best_fit_validates_and_dispatches.2.2.1 c5Manager c5Item (3, 10) 0
    (by decide) (by rfl)).2.2 (BinManager._bin_factory c5Manager) (by rfl)
    true c5BinAfter (by rfl)

/-- A tiling chain only moves right. -/
theorem tiles_le : ∀ (l : List SkylineSegment) (a b : Int), tilesFrom a l b → a ≤ b := by
  intro l
  induction l with
  | nil => intro a b h; exact le_of_eq h
  | cons s rest ih =>
    intro a b h
    obtain ⟨hx, hw, hrest⟩ := h
    have := ih (a + s.width) b hrest
    omega

/-- A tiling chain over a non-positive span is empty. -/
theorem tiles_nil_of_le (l : List SkylineSegment) (a b : Int)
    (h : tilesFrom a l b) (hba : b ≤ a) : l = [] := by
  cases l with
  | nil => rfl
  | cons s rest =>
    obtain ⟨hx, hw, hrest⟩ := h
    have := tiles_le rest (a + s.width) b hrest
    omega

/-- Every member of a tiling chain ends within the chain span. -/
theorem tiles_mem_ub : ∀ (l : List SkylineSegment) (a b : Int),
    tilesFrom a l b → ∀ t ∈ l, t.x + t.width ≤ b := by
  intro l
  induction l with
  | nil => intro a b _ t ht; exact absurd ht (List.not_mem_nil t)
  | cons s rest ih =>
    intro a b h t ht
    obtain ⟨hx, hw, hrest⟩ := h
    rcases List.mem_cons.mp ht with rfl | hmem
    · have := tiles_le rest (a + t.width) b hrest
      omega
    · exact ih (a + s.width) b hrest t hmem

/-- Every member of a tiling chain has positive width. -/
theorem tiles_mem_width : ∀ (l : List SkylineSegment) (a b : Int),
    tilesFrom a l b → ∀ t ∈ l, 0 < t.width := by
  intro l
  induction l with
  | nil => intro a b _ t ht; exact absurd ht (List.not_mem_nil t)
  | cons s rest ih =>
    intro a b h t ht
    obtain ⟨hx, hw, hrest⟩ := h
    rcases List.mem_cons.mp ht with rfl | hmem
    · exact hw
    · exact ih (a + s.width) b hrest t hmem

/-- Splitting a tiling chain at a list append. -/
theorem tiles_append_split : ∀ (A B : List SkylineSegment) (x0 e : Int),
    tilesFrom x0 (A ++ B) e → ∃ mid, tilesFrom x0 A mid ∧ tilesFrom mid B e := by
  intro A
  induction A with
  | nil => intro B x0 e h; exact ⟨x0, rfl, h⟩
  | cons s rest ih =>
    intro B x0 e h
    obtain ⟨hx, hw, hrest⟩ := h
    obtain ⟨mid, h1, h2⟩ := ih B (x0 + s.width) e hrest
    exact ⟨mid, ⟨hx, hw, h1⟩, h2⟩

/-- Joining two tiling chains at a shared endpoint. -/
theorem tiles_append_join : ∀ (A B : List SkylineSegment) (x0 mid e : Int),
    tilesFrom x0 A mid → tilesFrom mid B e → tilesFrom x0 (A ++ B) e := by
  intro A
  induction A with
  | nil =>
    intro B x0 mid e h1 h2
    have : x0 = mid := h1
    rw [List.nil_append, this]
    exact h2
  | cons s rest ih =>
    intro B x0 mid e h1 h2
    obtain ⟨hx, hw, hrest⟩ := h1
    exact ⟨hx, hw, ih B (x0 + s.width) mid e hrest h2⟩

/-- A tiling chain is strictly sorted by `x`. -/
theorem tiles_sortedByX : ∀ (l : List SkylineSegment) (a b : Int),
    tilesFrom a l b → sortedByX l := by
  intro l
  induction l with
  | nil => intro a b _; trivial
  | cons s rest ih =>
    intro a b h
    obtain ⟨hx, hw, hrest⟩ := h
    cases rest with
    | nil => trivial
    | cons t rest2 =>
      obtain ⟨htx, htw, hrest2⟩ := hrest
      exact ⟨by omega, ih (a + s.width) b ⟨htx, htw, hrest2⟩⟩

/-- `segLt` holds when the first segment starts strictly left of the
second. -/
theorem segLt_true_of_lt (a b : SkylineSegment) (h : a.x < b.x) : segLt a b = true := by
  simp [segLt]
  omega

/-- `segLt` fails when the first segment starts strictly right of the
second. -/
theorem segLt_false_of_gt (a b : SkylineSegment) (h : b.x < a.x) : segLt a b = false := by
  simp [segLt]
  omega

/-- `SortedList.add` appends when the new element is right of everything. -/
theorem sortedAdd_append : ∀ (A : List SkylineSegment) (s : SkylineSegment),
    (∀ a ∈ A, a.x < s.x) → sortedAdd A s = A ++ [s] := by
  intro A
  induction A with
  | nil => intro s _; rfl
  | cons a rest ih =>
    intro s h
    have ha := h a (List.mem_cons_self a rest)
    simp only [sortedAdd, segLt_false_of_gt s a ha, Bool.false_eq_true, if_false,
      List.cons_append, List.cons.injEq, true_and]
    exact ih s (fun t ht => h t (List.mem_cons_of_mem a ht))

/-- `SortedList.add` inserts in the middle when the new element is right
of the left part and left of the right part. -/
theorem sortedAdd_mid : ∀ (L R : List SkylineSegment) (s : SkylineSegment),
    (∀ a ∈ L, a.x < s.x) → (∀ r ∈ R, s.x < r.x) →
    sortedAdd (L ++ R) s = L ++ s :: R := by
  intro L
  induction L with
  | nil =>
    intro R s _ hR
    cases R with
    | nil => rfl
    | cons r rest =>
      simp only [List.nil_append, sortedAdd,
        segLt_true_of_lt s r (hR r (List.mem_cons_self r rest)), if_true]
  | cons a rest ih =>
    intro R s hL hR
    have ha := hL a (List.mem_cons_self a rest)
    simp only [List.cons_append, sortedAdd, segLt_false_of_gt s a ha,
      Bool.false_eq_true, if_false, List.cons.injEq, true_and]
    exact ih R s (fun t ht => hL t (List.mem_cons_of_mem a ht)) hR

/-- `removeFirst` of the final element when it does not occur earlier. -/
theorem removeFirst_concat : ∀ (A : List SkylineSegment) (s : SkylineSegment),
    (∀ a ∈ A, a ≠ s) → removeFirst (A ++ [s]) s = A := by
  intro A
  induction A with
  | nil => intro s _; simp [removeFirst]
  | cons a rest ih =>
    intro s h
    have ha := h a (List.mem_cons_self a rest)
    simp only [List.cons_append, removeFirst, if_neg ha, List.cons.injEq, true_and]
    exact ih s (fun t ht => h t (List.mem_cons_of_mem a ht))

/-- Branch 1 of `_clip_segment`: segment not under the new item. -/
theorem clip_outside (seg : SkylineSegment) (it : Item)
    (h1 : seg.x > it.x + it.width ∨ seg.x + seg.width < it.x) :
    Skyline._clip_segment seg it = [seg] := by
  unfold Skyline._clip_segment
  dsimp only
  rw [if_pos h1]

/-- Branch 2 of `_clip_segment`: segment fully under the new item. -/
theorem clip_under (seg : SkylineSegment) (it : Item)
    (h1 : ¬ (seg.x > it.x + it.width ∨ seg.x + seg.width < it.x))
    (h2 : seg.x ≥ it.x ∧ seg.x + seg.width ≤ it.x + it.width) :
    Skyline._clip_segment seg it = [] := by
  unfold Skyline._clip_segment
  dsimp only
  rw [if_neg h1, if_pos h2]

/-- Branch 3 of `_clip_segment`: left overhang only. -/
theorem clip_left (seg : SkylineSegment) (it : Item)
    (h1 : ¬ (seg.x > it.x + it.width ∨ seg.x + seg.width < it.x))
    (h3 : seg.x < it.x ∧ seg.x + seg.width ≤ it.x + it.width) :
    Skyline._clip_segment seg it = [⟨seg.x, seg.y, it.x - seg.x⟩] := by
  unfold Skyline._clip_segment
  dsimp only
  rw [if_neg h1, if_neg (show ¬ (seg.x ≥ it.x ∧ seg.x + seg.width ≤ it.x + it.width) by omega),
    if_pos h3]

/-- Branch 4 of `_clip_segment`: right overhang only. -/
theorem clip_right (seg : SkylineSegment) (it : Item)
    (h1 : ¬ (seg.x > it.x + it.width ∨ seg.x + seg.width < it.x))
    (h4 : seg.x ≥ it.x ∧ seg.x + seg.width > it.x + it.width) :
    Skyline._clip_segment seg it =
      [⟨it.x + it.width, seg.y, seg.x + seg.width - (it.x + it.width)⟩] := by
  unfold Skyline._clip_segment
  dsimp only
  rw [if_neg h1, if_neg (show ¬ (seg.x ≥ it.x ∧ seg.x + seg.width ≤ it.x + it.width) by omega),
    if_neg (show ¬ (seg.x < it.x ∧ seg.x + seg.width ≤ it.x + it.width) by omega),
    if_pos h4]

/-- Branch 5 of `_clip_segment`: overhang on both sides. -/
theorem clip_both (seg : SkylineSegment) (it : Item) (hw : 0 ≤ it.width)
    (h5 : seg.x < it.x ∧ seg.x + seg.width > it.x + it.width) :
    Skyline._clip_segment seg it =
      [⟨seg.x, seg.y, it.x - seg.x⟩,
       ⟨it.x + it.width, seg.y, seg.x + seg.width - (it.x + it.width)⟩] := by
  unfold Skyline._clip_segment
  dsimp only
  rw [if_neg (show ¬ (seg.x > it.x + it.width ∨ seg.x + seg.width < it.x) by omega),
    if_neg (show ¬ (seg.x ≥ it.x ∧ seg.x + seg.width ≤ it.x + it.width) by omega),
    if_neg (show ¬ (seg.x < it.x ∧ seg.x + seg.width ≤ it.x + it.width) by omega),
    if_neg (show ¬ (seg.x ≥ it.x ∧ seg.x + seg.width > it.x + it.width) by omega),
    if_pos h5]

/-- The accumulator invariant of the clipping fold: the pieces collected
so far tile `[x0, c)` minus the item's x-extent `[ix, ie)`. -/
def clipAcc (x0 ix ie : Int) (A : List SkylineSegment) (c : Int) : Prop :=
  (c ≤ ix ∧ tilesFrom x0 A c) ∨
  (ix ≤ c ∧ ∃ L R, A = L ++ R ∧ tilesFrom x0 L ix ∧ tilesFrom ie R (max ie c))

/-- Every piece collected so far lies strictly left of the cursor. -/
theorem clipAcc_mem_lt (x0 ix ie : Int) (A : List SkylineSegment) (c : Int)
    (h : clipAcc x0 ix ie A c) : ∀ t ∈ A, t.x < c := by
  intro t ht
  rcases h with ⟨hc, htile⟩ | ⟨hc, L, R, rfl, htL, htR⟩
  · have h1 := tiles_mem_ub A x0 c htile t ht
    have h2 := tiles_mem_width A x0 c htile t ht
    omega
  · rcases List.mem_append.mp ht with hL | hR2
    · have h1 := tiles_mem_ub L x0 ix htL t hL
      have h2 := tiles_mem_width L x0 ix htL t hL
      omega
    · have h1 := tiles_mem_ub R ie (max ie c) htR t hR2
      have h2 := tiles_mem_width R ie (max ie c) htR t hR2
      have h3 := tiles_mem_lb R ie (max ie c) htR t hR2
      rcases le_or_lt c ie with hcle | hlt
      · rw [max_eq_left hcle] at h1
        omega
      · rw [max_eq_right (le_of_lt hlt)] at h1
        omega

/-- The clipping fold of `_update_segment` carries the accumulator
invariant from the cursor to the end of the skyline chain. -/
theorem clipFold_acc (it : Item) (x0 : Int) (hw : 0 < it.width) :
    ∀ (sky : List SkylineSegment) (c e : Int) (A : List SkylineSegment),
      tilesFrom c sky e →
      clipAcc x0 it.x (it.x + it.width) A c →
      clipAcc x0 it.x (it.x + it.width)
        (sky.foldl (fun acc seg => sortedUpdate acc (Skyline._clip_segment seg it)) A) e := by
  intro sky
  induction sky with
  | nil =>
    intro c e A hch hacc
    have : c = e := hch
    rw [List.foldl_nil, ← this]
    exact hacc
  | cons seg rest ih =>
    intro c e A hch hacc
    obtain ⟨hx, hwpos, hrest⟩ := hch
    have hmlt := clipAcc_mem_lt x0 it.x (it.x + it.width) A c hacc
    rw [List.foldl_cons]
    by_cases hc1 : c + seg.width ≤ it.x
    · -- segment entirely left of the item
      have hcix : c < it.x := by omega
      have htile : tilesFrom x0 A c := by
        rcases hacc with ⟨_, ht⟩ | ⟨hge, _⟩
        · exact ht
        · omega
      by_cases hlt : seg.x + seg.width < it.x
      · rw [clip_outside seg it (Or.inr hlt)]
        have happ : sortedUpdate A [seg] = A ++ [seg] := by
          show sortedAdd A seg = A ++ [seg]
          exact sortedAdd_append A seg (fun t ht => by rw [hx]; exact hmlt t ht)
        rw [happ]
        refine ih (c + seg.width) e (A ++ [seg]) hrest (Or.inl ⟨hc1, ?_⟩)
        exact tiles_append_join A [seg] x0 c (c + seg.width) htile
          ⟨hx, hwpos, rfl⟩
      · have hclip := clip_left seg it (by omega) (by constructor <;> omega)
        rw [hclip]
        have happ : sortedUpdate A [(⟨seg.x, seg.y, it.x - seg.x⟩ : SkylineSegment)] =
            A ++ [⟨seg.x, seg.y, it.x - seg.x⟩] := by
          show sortedAdd A _ = _
          exact sortedAdd_append A _ (fun t ht => by show t.x < seg.x; rw [hx]; exact hmlt t ht)
        rw [happ]
        refine ih (c + seg.width) e _ hrest (Or.inl ⟨hc1, ?_⟩)
        refine tiles_append_join A [⟨seg.x, seg.y, it.x - seg.x⟩] x0 c (c + seg.width) htile
          ⟨hx, by show 0 < it.x - seg.x; omega, ?_⟩
        show c + (it.x - seg.x) = c + seg.width
        omega
    · by_cases hc2 : c < it.x
      · -- segment straddles the left item edge
        have htile : tilesFrom x0 A c := by
          rcases hacc with ⟨_, ht⟩ | ⟨hge, _⟩
          · exact ht
          · omega
        by_cases hc3 : c + seg.width ≤ it.x + it.width
        · have hclip := clip_left seg it (by omega) (by constructor <;> omega)
          rw [hclip]
          have happ : sortedUpdate A [(⟨seg.x, seg.y, it.x - seg.x⟩ : SkylineSegment)] =
              A ++ [⟨seg.x, seg.y, it.x - seg.x⟩] := by
            show sortedAdd A _ = _
            exact sortedAdd_append A _ (fun t ht => by show t.x < seg.x; rw [hx]; exact hmlt t ht)
          rw [happ]
          refine ih (c + seg.width) e _ hrest (Or.inr ⟨by omega, A ++ [⟨seg.x, seg.y, it.x - seg.x⟩], [], by rw [List.append_nil], ?_, ?_⟩)
          · refine tiles_append_join A _ x0 c it.x htile
              ⟨hx, by show 0 < it.x - seg.x; omega, ?_⟩
            show c + (it.x - seg.x) = it.x
            omega
          · show it.x + it.width = max (it.x + it.width) (c + seg.width)
            omega
        · have hclip := clip_both seg it (by omega) (by constructor <;> omega)
          rw [hclip]
          have happ1 : sortedAdd A (⟨seg.x, seg.y, it.x - seg.x⟩ : SkylineSegment) =
              A ++ [⟨seg.x, seg.y, it.x - seg.x⟩] :=
            sortedAdd_append A _ (fun t ht => by show t.x < seg.x; rw [hx]; exact hmlt t ht)
          have happ2 : sortedAdd (A ++ [(⟨seg.x, seg.y, it.x - seg.x⟩ : SkylineSegment)])
              (⟨it.x + it.width, seg.y, seg.x + seg.width - (it.x + it.width)⟩ : SkylineSegment) =
              (A ++ [⟨seg.x, seg.y, it.x - seg.x⟩]) ++
                [⟨it.x + it.width, seg.y, seg.x + seg.width - (it.x + it.width)⟩] := by
            refine sortedAdd_append _ _ (fun t ht => ?_)
            show t.x < it.x + it.width
            rcases List.mem_append.mp ht with hA | hp
            · have := hmlt t hA
              omega
            · rw [List.mem_singleton] at hp
              rw [hp]
              show seg.x < it.x + it.width
              omega
          show clipAcc x0 it.x (it.x + it.width)
            (List.foldl _ (sortedAdd (sortedAdd A _) _) rest) e
          rw [happ1, happ2]
          refine ih (c + seg.width) e _ hrest (Or.inr ⟨by omega,
            A ++ [⟨seg.x, seg.y, it.x - seg.x⟩],
            [⟨it.x + it.width, seg.y, seg.x + seg.width - (it.x + it.width)⟩],
            by rw [List.append_assoc], ?_, ?_⟩)
          · refine tiles_append_join A _ x0 c it.x htile
              ⟨hx, by show 0 < it.x - seg.x; omega, ?_⟩
            show c + (it.x - seg.x) = it.x
            omega
          · refine ⟨rfl, by show 0 < seg.x + seg.width - (it.x + it.width); omega, ?_⟩
            show it.x + it.width + (seg.x + seg.width - (it.x + it.width)) =
              max (it.x + it.width) (c + seg.width)
            omega
      · -- cursor at or right of the left item edge
        push_neg at hc2
        by_cases hc4 : c + seg.width ≤ it.x + it.width
        · have hclip := clip_under seg it (by omega) (by constructor <;> omega)
          rw [hclip]
          have hstep : sortedUpdate A [] = A := rfl
          rw [hstep]
          refine ih (c + seg.width) e A hrest ?_
          rcases hacc with ⟨hle, htile⟩ | ⟨hge, L, R, hAeq, htL, htR⟩
          · have hceq : c = it.x := by omega
            refine Or.inr ⟨by omega, A, [], by rw [List.append_nil], by rwa [hceq] at htile, ?_⟩
            show it.x + it.width = max (it.x + it.width) (c + seg.width)
            omega
          · refine Or.inr ⟨by omega, L, R, hAeq, htL, ?_⟩
            have hcle : c ≤ it.x + it.width := by omega
            rw [max_eq_left hcle] at htR
            rw [max_eq_left (by omega : c + seg.width ≤ it.x + it.width)]
            exact htR
        · by_cases hc5 : c ≤ it.x + it.width
          · have hclip := clip_right seg it (by omega) (by constructor <;> omega)
            rw [hclip]
            have happ : sortedUpdate A
                [(⟨it.x + it.width, seg.y, seg.x + seg.width - (it.x + it.width)⟩ : SkylineSegment)] =
                A ++ [⟨it.x + it.width, seg.y, seg.x + seg.width - (it.x + it.width)⟩] := by
              show sortedAdd A _ = _
              refine sortedAdd_append A _ (fun t ht => ?_)
              show t.x < it.x + it.width
              have := hmlt t ht
              omega
            rw [happ]
            refine ih (c + seg.width) e _ hrest ?_
            rcases hacc with ⟨hle, htile⟩ | ⟨hge, L, R, hAeq, htL, htR⟩
            · have hceq : c = it.x := by omega
              refine Or.inr ⟨by omega, A,
                [⟨it.x + it.width, seg.y, seg.x + seg.width - (it.x + it.width)⟩],
                rfl, by rwa [hceq] at htile, ?_⟩
              refine ⟨rfl, by show 0 < seg.x + seg.width - (it.x + it.width); omega, ?_⟩
              show it.x + it.width + (seg.x + seg.width - (it.x + it.width)) =
                max (it.x + it.width) (c + seg.width)
              omega
            · have hReq : R = [] := by
                refine tiles_nil_of_le R (it.x + it.width) (max (it.x + it.width) c) htR ?_
                rw [max_eq_left hc5]
              have hAL : A = L := by rw [hAeq, hReq, List.append_nil]
              refine Or.inr ⟨by omega, L,
                [⟨it.x + it.width, seg.y, seg.x + seg.width - (it.x + it.width)⟩],
                by rw [hAL], htL, ?_⟩
              refine ⟨rfl, by show 0 < seg.x + seg.width - (it.x + it.width); omega, ?_⟩
              show it.x + it.width + (seg.x + seg.width - (it.x + it.width)) =
                max (it.x + it.width) (c + seg.width)
              omega
          · push_neg at hc5
            have hclip := clip_outside seg it (Or.inl (by omega))
            rw [hclip]
            have happ : sortedUpdate A [seg] = A ++ [seg] := by
              show sortedAdd A seg = A ++ [seg]
              exact sortedAdd_append A seg (fun t ht => by rw [hx]; exact hmlt t ht)
            rw [happ]
            rcases hacc with ⟨hle, htile⟩ | ⟨hge, L, R, hAeq, htL, htR⟩
            · omega
            · refine ih (c + seg.width) e _ hrest (Or.inr ⟨by omega, L, R ++ [seg],
                by rw [hAeq, List.append_assoc], htL, ?_⟩)
              rw [max_eq_right (by omega : it.x + it.width ≤ c)] at htR
              rw [max_eq_right (by omega : it.x + it.width ≤ c + seg.width)]
              exact tiles_append_join R [seg] (it.x + it.width) c (c + seg.width) htR
                ⟨hx, hwpos, rfl⟩

/-- Replacing the last element by one of equal height keeps adjacent
heights distinct. -/
theorem noAdj_replace_last : ∀ (A : List SkylineSegment) (a b : SkylineSegment),
    noAdjEqY (A ++ [a]) → b.y = a.y → noAdjEqY (A ++ [b]) := by
  intro A
  induction A with
  | nil => intro a b _ _; trivial
  | cons x rest ih =>
    intro a b h hy
    cases rest with
    | nil =>
      obtain ⟨h1, -⟩ := h
      exact ⟨by rw [hy]; exact h1, trivial⟩
    | cons r rest2 =>
      obtain ⟨h1, h2⟩ := h
      exact ⟨h1, ih a b h2 hy⟩

/-- Appending an element of different height after the last keeps
adjacent heights distinct. -/
theorem noAdj_append_last : ∀ (A : List SkylineSegment) (a b : SkylineSegment),
    noAdjEqY (A ++ [a]) → a.y ≠ b.y → noAdjEqY ((A ++ [a]) ++ [b]) := by
  intro A
  induction A with
  | nil => intro a b _ hne; exact ⟨hne, trivial⟩
  | cons x rest ih =>
    intro a b h hne
    cases rest with
    | nil =>
      obtain ⟨h1, -⟩ := h
      exact ⟨h1, hne, trivial⟩
    | cons r rest2 =>
      obtain ⟨h1, h2⟩ := h
      exact ⟨h1, ih a b h2 hne⟩

/-- The merge loop of `_merge_segments` keeps the tiling and establishes
that no two adjacent segments share a height. -/
theorem mergeLoop_spec : ∀ (pending : List SkylineSegment) (x0 cur endX : Int)
    (A : List SkylineSegment) (la : SkylineSegment),
    tilesFrom x0 (A ++ [la]) cur → noAdjEqY (A ++ [la]) →
    tilesFrom cur pending endX →
    tilesFrom x0 (mergeLoop (A ++ [la]) pending) endX ∧
      noAdjEqY (mergeLoop (A ++ [la]) pending) := by
  intro pending
  induction pending with
  | nil =>
    intro x0 cur endX A la hacc hnadj hch
    have : cur = endX := hch
    rw [← this]
    exact ⟨hacc, hnadj⟩
  | cons seg rest ih =>
    intro x0 cur endX A la hacc hnadj hch
    obtain ⟨hsx, hsw, hrest⟩ := hch
    obtain ⟨mid, htA, htla⟩ := tiles_append_split A [la] x0 cur hacc
    obtain ⟨hlx, hlw, hle⟩ := htla
    have hlend : la.x + la.width = cur := by rw [hlx]; exact hle
    have hAlt : ∀ t ∈ A, t.x < la.x := by
      intro t ht
      have h1 := tiles_mem_ub A x0 mid htA t ht
      have h2 := tiles_mem_width A x0 mid htA t ht
      omega
    have hml : mergeLoop (A ++ [la]) (seg :: rest) =
        match (A ++ [la]).getLast? with
        | none => mergeLoop (sortedAdd (A ++ [la]) seg) rest
        | some last =>
          if seg.y = last.y ∧ seg.x = last.x + last.width then
            mergeLoop (sortedAdd (removeFirst (A ++ [la]) last)
              ⟨last.x, last.y, seg.x + seg.width - last.x⟩) rest
          else mergeLoop (sortedAdd (A ++ [la]) seg) rest := rfl
    rw [hml, List.getLast?_concat]
    dsimp only
    by_cases hy : seg.y = la.y
    · rw [if_pos ⟨hy, by omega⟩]
      have hrm : removeFirst (A ++ [la]) la = A := by
        refine removeFirst_concat A la (fun t ht => ?_)
        intro hc
        have := hAlt t ht
        rw [hc] at this
        omega
      rw [hrm]
      have hadd : sortedAdd A (⟨la.x, la.y, seg.x + seg.width - la.x⟩ : SkylineSegment) =
          A ++ [⟨la.x, la.y, seg.x + seg.width - la.x⟩] := by
        refine sortedAdd_append A _ (fun t ht => ?_)
        show t.x < la.x
        exact hAlt t ht
      rw [hadd]
      refine ih x0 (cur + seg.width) endX A
        ⟨la.x, la.y, seg.x + seg.width - la.x⟩ ?_ ?_ hrest
      · refine tiles_append_join A _ x0 mid (cur + seg.width) htA
          ⟨by rw [← hlx], by show 0 < seg.x + seg.width - la.x; omega, ?_⟩
        show mid + (seg.x + seg.width - la.x) = cur + seg.width
        omega
      · exact noAdj_replace_last A la _ hnadj rfl
    · rw [if_neg (fun hc => hy hc.1)]
      have hadd : sortedAdd (A ++ [la]) seg = (A ++ [la]) ++ [seg] := by
        refine sortedAdd_append _ seg (fun t ht => ?_)
        rcases List.mem_append.mp ht with hA | hla
        · have := hAlt t hA
          omega
        · rw [List.mem_singleton] at hla
          rw [hla]
          omega
      rw [hadd]
      have := ih x0 (cur + seg.width) endX (A ++ [la]) seg
        (by
          refine tiles_append_join (A ++ [la]) [seg] x0 cur (cur + seg.width) hacc
            ⟨hsx, hsw, rfl⟩)
        (noAdj_append_last A la seg hnadj (fun hc => hy hc.symm))
        hrest
      rw [List.append_assoc] at this
      rw [List.append_assoc]
      exact this

/-- `_merge_segments` on a non-empty tiling chain succeeds, keeps the
tiling and leaves no two adjacent segments of equal height. -/
theorem merge_segments_spec (sky : List SkylineSegment) (x0 endX : Int)
    (h : tilesFrom x0 sky endX) (hne : sky ≠ []) :
    ∃ merged, Skyline._merge_segments sky = .ok merged ∧
      tilesFrom x0 merged endX ∧ noAdjEqY merged := by
  cases sky with
  | nil => exact absurd rfl hne
  | cons s0 rest =>
    obtain ⟨hx, hw, hrest⟩ := h
    have := mergeLoop_spec rest x0 (x0 + s0.width) endX [] s0
      ⟨hx, hw, rfl⟩ trivial hrest
    exact ⟨mergeLoop [s0] rest, rfl, this.1, this.2⟩

/-- A successful `get?` pins the head of the corresponding drop. -/
theorem drop_head_of_get? (sky : List SkylineSegment) (i : Nat) (seg : SkylineSegment)
    (hget : sky.get? i = some seg) :
    sky.drop i = seg :: sky.drop (i + 1) := by
  have hi : i < sky.length := by
    by_contra hc
    rw [List.get?_eq_none.mpr (by omega)] at hget
    exact absurd hget (by simp)
  have h1 := List.drop_eq_getElem_cons hi
  have h2 : sky[i] = seg := by
    have := List.getElem?_eq_getElem hi
    rw [← List.get?_eq_getElem?] at this
    rw [hget] at this
    exact (Option.some.injEq _ _).mp this.symm
  rw [h2] at h1
  exact h1

/-- A successful `_check_fit` implies the placement stays within the bin
width. -/
theorem check_fit_le_binW (sky : List SkylineSegment) (binW binH w h : Int)
    (i : Nat) (y : Int)
    (hcf : Skyline._check_fit sky binW binH w h i = some y)
    (s0 : SkylineSegment) (rest : List SkylineSegment)
    (hdd : sky.drop i = s0 :: rest) :
    s0.x + w ≤ binW := by
  unfold Skyline._check_fit at hcf
  rw [hdd] at hcf
  dsimp only at hcf
  by_cases hbw : binW < s0.x + w
  · rw [if_pos hbw] at hcf
    exact absurd hcf (by simp)
  · omega

/-- After clipping under a placed item and adding the replacement
segment on top, `_merge_segments` succeeds and restores the full skyline
invariant. -/
theorem update_merge_invariant (s : Skyline) (item2 : Item) (seg : SkylineSegment)
    (i : Nat) (hget : s.skyline.get? i = some seg)
    (htile : tilesFrom 0 s.skyline s.width)
    (hx2 : item2.x = seg.x) (hw2 : 0 < item2.width)
    (hle : seg.x + item2.width ≤ s.width)
    (htop2 : item2.height + item2.y < s.height) :
    ∃ merged, Skyline._merge_segments (clipAndAdd s seg item2) = .ok merged ∧
      sortedByX merged ∧ tilesFrom 0 merged s.width ∧ noAdjEqY merged := by
  have hseg_mem : seg ∈ s.skyline := List.get?_mem hget
  have hix0 : 0 ≤ seg.x := tiles_mem_lb s.skyline 0 s.width htile seg hseg_mem
  have hfinal := clipFold_acc item2 0 hw2 s.skyline 0 s.width [] htile
    (Or.inl ⟨by omega, rfl⟩)
  rcases hfinal with ⟨hcix, -⟩ | ⟨-, L, R, hbase, htL, htR⟩
  · omega
  · have hieW : item2.x + item2.width ≤ s.width := by omega
    rw [max_eq_right hieW] at htR
    have hnew : clipAndAdd s seg item2 =
        L ++ (⟨seg.x, item2.y + item2.height, item2.width⟩ : SkylineSegment) :: R := by
      unfold clipAndAdd
      rw [if_pos htop2, hbase]
      refine sortedAdd_mid L R _ (fun t ht => ?_) (fun r hr => ?_)
      · show t.x < seg.x
        have h1 := tiles_mem_ub L 0 item2.x htL t ht
        have h2 := tiles_mem_width L 0 item2.x htL t ht
        omega
      · show seg.x < r.x
        have h1 := tiles_mem_lb R (item2.x + item2.width) s.width htR r hr
        omega
    have htiled : tilesFrom 0
        (L ++ (⟨seg.x, item2.y + item2.height, item2.width⟩ : SkylineSegment) :: R)
        s.width := by
      refine tiles_append_join L _ 0 item2.x s.width htL ⟨by show seg.x = item2.x; omega, hw2, ?_⟩
      show tilesFrom (item2.x + item2.width) R s.width
      exact htR
    obtain ⟨merged, hmg, ht2, hn2⟩ := merge_segments_spec _ 0 s.width htiled (by simp)
    exact ⟨merged, by rw [hnew]; exact hmg,
      tiles_sortedByX merged 0 s.width ht2, ht2, hn2⟩

/-- When the chosen segment belongs to the skyline and the wastemap
attribute is present, `_update_segment` returns the clipped-and-extended
skyline together with some wastemap attribute. -/
theorem update_segment_ok (s : Skyline) (seg : SkylineSegment) (y : Int)
    (item2 : Item) (wm : Guillotine) (hmem : seg ∈ s.skyline)
    (hwm : s.wastemap = some wm) :
    ∃ wmOut, Skyline._update_segment s seg y item2 = .ok (clipAndAdd s seg item2, wmOut) := by
  obtain ⟨j, hj⟩ := indexOfSeg_of_mem s.skyline seg hmem
  unfold Skyline._update_segment
  rcases huse : s.use_waste_map with _ | _
  · exact ⟨s.wastemap, by rw [if_neg (by simp)]⟩
  · refine ⟨some (Skyline._add_to_wastemap s.skyline j item2 y wm), ?_⟩
    rw [if_pos rfl, hj, hwm]

/-- Claim C1 (amended): from a state satisfying the skyline invariant, a
successful `insert` whose newly placed item stays strictly below the bin
top yields a skyline that is again sorted by `x`, tiles `[0, binW]` with
no gap and no overlap, and has no two adjacent segments of equal height.
(When the placed item reaches the bin top the partition is lost; see the
counterexample.) -/
theorem insert_preserves_skyline_partition (s : Skyline) (it : Item) (s' : Skyline)
    (pl : Item) (hw : 0 < it.width) (hh : 0 < it.height)
    (htile : tilesFrom 0 s.skyline s.width) (hnadj : noAdjEqY s.skyline)
    (hins : Skyline.insert s it = .ok (true, s'))
    (hitems : s'.items = s.items ++ [pl])
    (htop : pl.y + pl.height < s.height) :
    sortedByX s'.skyline ∧ tilesFrom 0 s'.skyline s.width ∧ noAdjEqY s'.skyline := by
  unfold Skyline.insert at hins
  rcases hwm : s.wastemap with _ | wm
  · rw [hwm] at hins
    exact absurd hins (by simp)
  · simp only [hwm] at hins
    rcases hg : guilInsert wm it with _ | p
    · simp only [hg] at hins
      rcases hf : Skyline._find_best_score s it with _ | ⟨sc, seg, rot, y⟩
      · simp only [hf] at hins
        exact absurd hins (by simp)
      · simp only [hf] at hins
        obtain ⟨i, hget, hcond⟩ :=
          (candidatesFrom_mem_iff s it s.skyline 0 (sc, seg, y, rot)).mp
            (find_best_score_selects_min s it sc seg rot y hf).1
        simp only [Nat.zero_add, candCondNR, candCondR] at hcond
        have hmem : seg ∈ s.skyline := List.get?_mem hget
        have hdd := drop_head_of_get? s.skyline i seg hget
        rcases rot with _ | _
        · -- non-rotated placement
          have hcf : Skyline._check_fit s.skyline s.width s.height it.width it.height i =
              some y := by
            rcases hcond with ⟨-, h2, -⟩ | ⟨hcr, -⟩
            · exact h2
            · exact absurd hcr (by simp)
          have hle : seg.x + it.width ≤ s.width :=
            check_fit_le_binW s.skyline s.width s.height it.width it.height i y hcf
              seg _ hdd
          simp only [Bool.false_eq_true, if_false] at hins
          obtain ⟨wmOut, hupd⟩ := update_segment_ok s seg y
            { width := it.width, height := it.height, x := seg.x, y := y,
              rotated := it.rotated } wm hmem hwm
          simp only [hupd] at hins
          rcases hmg0 : Skyline._merge_segments (clipAndAdd s seg
              { width := it.width, height := it.height, x := seg.x, y := y,
                rotated := it.rotated }) with e | merged
          · simp only [hmg0] at hins
            exact absurd hins (by simp)
          · simp only [hmg0, Except.ok.injEq, Prod.mk.injEq] at hins
            have hs' := hins.2
            have hplp : pl =
                ({ width := it.width, height := it.height, x := seg.x, y := y,
                   rotated := it.rotated } : Item) := by
              have h1 : s.items ++
                  [({ width := it.width, height := it.height, x := seg.x, y := y,
                      rotated := it.rotated } : Item)] = s.items ++ [pl] := by
                rw [← hitems, ← hs']
              have := List.append_cancel_left h1
              simp only [List.cons.injEq] at this
              exact this.1.symm
            have htop2 : (it.height : Int) + y < s.height := by
              rw [hplp] at htop
              simp only at htop
              omega
            obtain ⟨merged', hmg', hp1, hp2, hp3⟩ := update_merge_invariant s
              { width := it.width, height := it.height, x := seg.x, y := y,
                rotated := it.rotated } seg i hget htile rfl hw hle htop2
            rw [hmg0] at hmg'
            simp only [Except.ok.injEq] at hmg'
            rw [← hs']
            simp only []
            rw [hmg']
            exact ⟨hp1, hp2, hp3⟩
        · -- rotated placement
          have hcf : Skyline._check_fit s.skyline s.width s.height it.height it.width i =
              some y := by
            rcases hcond with ⟨hcr, -⟩ | ⟨-, -, h2, -⟩
            · exact absurd hcr (by simp)
            · exact h2
          have hle : seg.x + it.height ≤ s.width :=
            check_fit_le_binW s.skyline s.width s.height it.height it.width i y hcf
              seg _ hdd
          simp only [if_true, Item.rotate] at hins
          obtain ⟨wmOut, hupd⟩ := update_segment_ok s seg y
            { width := it.height, height := it.width, x := seg.x, y := y,
              rotated := !it.rotated } wm hmem hwm
          simp only [hupd] at hins
          rcases hmg0 : Skyline._merge_segments (clipAndAdd s seg
              { width := it.height, height := it.width, x := seg.x, y := y,
                rotated := !it.rotated }) with e | merged
          · simp only [hmg0] at hins
            exact absurd hins (by simp)
          · simp only [hmg0, Except.ok.injEq, Prod.mk.injEq] at hins
            have hs' := hins.2
            have hplp : pl =
                ({ width := it.height, height := it.width, x := seg.x, y := y,
                   rotated := !it.rotated } : Item) := by
              have h1 : s.items ++
                  [({ width := it.height, height := it.width, x := seg.x, y := y,
                      rotated := !it.rotated } : Item)] = s.items ++ [pl] := by
                rw [← hitems, ← hs']
              have := List.append_cancel_left h1
              simp only [List.cons.injEq] at this
              exact this.1.symm
            have htop2 : (it.width : Int) + y < s.height := by
              rw [hplp] at htop
              simp only at htop
              omega
            obtain ⟨merged', hmg', hp1, hp2, hp3⟩ := update_merge_invariant s
              { width := it.height, height := it.width, x := seg.x, y := y,
                rotated := !it.rotated } seg i hget htile rfl hh hle htop2
            rw [hmg0] at hmg'
            simp only [Except.ok.injEq] at hmg'
            rw [← hs']
            simp only []
            rw [hmg']
            exact ⟨hp1, hp2, hp3⟩
    · -- wastemap placement: the skyline is untouched
      simp only [hg, Except.ok.injEq, Prod.mk.injEq] at hins
      rw [← hins.2]
      exact ⟨tiles_sortedByX s.skyline 0 s.width htile, htile, hnadj⟩

/-- Claim C1 counterexample: on a fresh 10×10 Skyline engine without
rotation — whose skyline satisfies the invariant — inserting a 5×10 item
succeeds (returns `True`), yet the resulting segment list `[(5, 0, 5)]`
no longer tiles `[0, 10]`: the clipped region `[0, 5)` is replaced by no
segment because the item reaches the bin top. -/
theorem skyline_partition_counterexample :
    tilesFrom 0 (mkSkyline 10 10 false true .bottom_left).skyline 10 ∧
    noAdjEqY (mkSkyline 10 10 false true .bottom_left).skyline ∧
    (Skyline.insert (mkSkyline 10 10 false true .bottom_left) ⟨5, 10, 0, 0, false⟩).map
        (fun r => (r.1, r.2.skyline)) = .ok (true, [⟨5, 0, 5⟩]) ∧
    ¬ tilesFrom 0 [(⟨5, 0, 5⟩ : SkylineSegment)] 10 :=
  ⟨by decide, by decide, by rfl, by decide⟩

/-- The engine state after inserting a 3×3 item into a fresh 10×10
Skyline engine, extracted from the run. -/
def c1After : Skyline :=
  ((Skyline.insert (mkSkyline 10 10 false true .bottom_left)
    ⟨3, 3, 0, 0, false⟩).toOption.getD (true, mkSkyline 10 10 false true .bottom_left)).2

/-- Claim C1 witness: a concrete below-top insert preserves the skyline
invariant. -/
theorem insert_preserves_skyline_partition_witness :
    sortedByX c1After.skyline ∧ tilesFrom 0 c1After.skyline 10 ∧
      noAdjEqY c1After.skyline :=
  insert_preserves_skyline_partition (mkSkyline 10 10 false true .bottom_left)
    ⟨3, 3, 0, 0, false⟩ c1After ⟨3, 3, 0, 0, false⟩
    (by decide) (by decide) (by decide) (by decide) (by rfl) (by rfl) (by decide)

end GreedyPacker
